import Mathlib

/-!
Verification of the storage-and-concurrency core of the BusTub-style engine:
hash table bucket pages, the extendible hash index, the buffer pool
(instances and the parallel shard router), the LRU replacer and the lock
manager.  Each definition is a shallow embedding of the corresponding C++
function; theorems settle the specification claims against them.

Keys, values, page ids, frame ids, record ids and transaction ids are
modelled as `Nat` (page ids as `Int` where the sentinel `INVALID_PAGE_ID
= -1` matters).  The key comparator `cmp` of the templated C++ code is a
boolean function `cmp a b = true` exactly when `cmp(a, b) == 0` in C++.
`BUCKET_ARRAY_SIZE` is the length of a bucket's slot list.
-/

set_option autoImplicit false

namespace BusTub

/-- One slot of a hash table bucket page: its `occupied_` bit, its
`readable_` bit, and the `(key, value)` entry of `array_`. -/
structure Slot where
  occ : Bool
  rd : Bool
  key : Nat
  val : Nat
  deriving DecidableEq, Repr

/-- A zeroed slot: both bitmap bits clear, entry zero-initialised. -/
def Slot.zero : Slot := ⟨false, false, 0, 0⟩

/-- A bucket page is its fixed array of slots (the parallel bitmaps
`occupied_`/`readable_` live inside each slot). -/
abbrev Bucket := List Slot

namespace Bucket

/-- Scan loop of `HashTableBucketPage::GetValue`: walk the slots in
order, stop at the first slot whose occupied bit is clear, and append the
value of every readable slot whose key matches to the accumulator. -/
def getValueGo (cmp : Nat → Nat → Bool) (key : Nat) : List Slot → List Nat → List Nat
  | [], acc => acc
  | s :: rest, acc =>
    if !s.occ then acc
    else if s.rd && cmp s.key key then getValueGo cmp key rest (acc ++ [s.val])
    else getValueGo cmp key rest acc

/-- `HashTableBucketPage::GetValue`: append matching values to `result`
and return `!result->empty()` on the mutated vector. -/
def getValue (b : Bucket) (key : Nat) (cmp : Nat → Nat → Bool) (result : List Nat) :
    List Nat × Bool :=
  let r := getValueGo cmp key b result
  (r, !r.isEmpty)

/-- Scan loop of `HashTableBucketPage::Insert`: walk every slot; a
readable slot holding the exact `(key, value)` pair aborts the insert
(`none`); otherwise remember the first non-readable slot (`free_slot`).
Returns `some free_slot` when no duplicate pair was found. -/
def insertScan (key val : Nat) (cmp : Nat → Nat → Bool) :
    List Slot → Nat → Option Nat → Option (Option Nat)
  | [], _, free => some free
  | s :: rest, idx, free =>
    if s.rd then
      if cmp s.key key && s.val == val then none
      else insertScan key val cmp rest (idx + 1) free
    else
      match free with
      | none => insertScan key val cmp rest (idx + 1) (some idx)
      | some f => insertScan key val cmp rest (idx + 1) (some f)

/-- `HashTableBucketPage::Insert`: fail on an exact duplicate pair or
when no free slot exists; otherwise write the entry at the first
non-readable slot and set its occupied and readable bits. -/
def insert (b : Bucket) (key val : Nat) (cmp : Nat → Nat → Bool) : Bucket × Bool :=
  match insertScan key val cmp b 0 none with
  | none => (b, false)
  | some none => (b, false)
  | some (some f) => (b.set f ⟨true, true, key, val⟩, true)

/-- Scan loop of `HashTableBucketPage::Remove`: stop at the first
non-occupied slot; at the first readable slot holding the pair, zero the
entry (`array_[idx] = MappingType()`) and clear its readable bit
(`RemoveAt`), leaving the occupied bit set. -/
def removeGo (key val : Nat) (cmp : Nat → Nat → Bool) : List Slot → Option (List Slot)
  | [] => none
  | s :: rest =>
    if !s.occ then none
    else if s.rd && s.occ && (cmp s.key key && s.val == val) then
      some ({ s with rd := false, key := 0, val := 0 } :: rest)
    else
      match removeGo key val cmp rest with
      | none => none
      | some rest2 => some (s :: rest2)

/-- `HashTableBucketPage::Remove`. -/
def remove (b : Bucket) (key val : Nat) (cmp : Nat → Nat → Bool) : Bucket × Bool :=
  match removeGo key val cmp b with
  | none => (b, false)
  | some b2 => (b2, true)

/-- `HashTableBucketPage::IsRepeat`: occupied-break scan looking for the
exact `(key, value)` pair among readable slots. -/
def isRepeat (b : Bucket) (key val : Nat) (cmp : Nat → Nat → Bool) : Bool :=
  match b with
  | [] => false
  | s :: rest =>
    if !s.occ then false
    else if s.rd && (cmp s.key key && s.val == val) then true
    else isRepeat rest key val cmp

/-- `HashTableBucketPage::NumReadable`: population count of the readable
bitmap. -/
def numReadable (b : Bucket) : Nat := b.countP (fun s => s.rd)

/-- `HashTableBucketPage::IsFull`. -/
def isFull (b : Bucket) : Bool := numReadable b == b.length

/-- `HashTableBucketPage::IsEmpty`. -/
def isEmpty (b : Bucket) : Bool := numReadable b == 0

/-- Collection loop of `HashTableBucketPage::CopyMappingsAndResetPage`:
occupied-break scan appending every readable `(key, value)` pair. -/
def copyGo : List Slot → List (Nat × Nat) → List (Nat × Nat)
  | [], acc => acc
  | s :: rest, acc =>
    if !s.occ then acc
    else if s.rd then copyGo rest (acc ++ [(s.key, s.val)])
    else copyGo rest acc

/-- `HashTableBucketPage::CopyMappingsAndResetPage`: collect the live
pairs, then `memset` all three arrays to zero. -/
def copyMappingsAndResetPage (b : Bucket) : List (Nat × Nat) × Bucket :=
  (copyGo b [], List.replicate b.length Slot.zero)

end Bucket

/-- Modelled from the spec: the source of `HashTableDirectoryPage` is not
part of the repository snapshot, so the directory page is built from the
spec's data model — `global_depth`, per-slot `local_depth[i]` and
`bucket_page_id[i]`, with the directory's logical size `2 ^ global_depth`.
The arrays are total functions; slots at or beyond the logical size are
never observed. -/
structure DirPage where
  globalDepth : Nat
  localDepth : Nat → Nat
  bucketPageId : Nat → Nat

namespace DirPage

/-- Modelled from the spec: the directory holds `2 ^ global_depth` slots. -/
def size (d : DirPage) : Nat := 2 ^ d.globalDepth

/-- Modelled from the spec: `GlobalDepthMask = (1 << global_depth) - 1`. -/
def globalDepthMask (d : DirPage) : Nat := 2 ^ d.globalDepth - 1

/-- Modelled from the spec: `LocalDepthMask(i) = (1 << local_depth[i]) - 1`. -/
def getLocalDepthMask (d : DirPage) (i : Nat) : Nat := 2 ^ d.localDepth i - 1

/-- Modelled from the spec:
`SplitImageIndex(i) = i XOR (1 << (local_depth[i] - 1))`. -/
def getSplitImageIndex (d : DirPage) (i : Nat) : Nat :=
  Nat.xor i (2 ^ (d.localDepth i - 1))

/-- Modelled from the spec: `SetBucketPageId`. -/
def setBucketPageId (d : DirPage) (i pid : Nat) : DirPage :=
  { d with bucketPageId := fun j => if j = i then pid else d.bucketPageId j }

/-- Modelled from the spec: `SetLocalDepth`. -/
def setLocalDepth (d : DirPage) (i ld : Nat) : DirPage :=
  { d with localDepth := fun j => if j = i then ld else d.localDepth j }

/-- Modelled from the spec: `IncrLocalDepth`. -/
def incrLocalDepth (d : DirPage) (i : Nat) : DirPage :=
  d.setLocalDepth i (d.localDepth i + 1)

/-- Modelled from the spec: `DecrLocalDepth`. -/
def decrLocalDepth (d : DirPage) (i : Nat) : DirPage :=
  d.setLocalDepth i (d.localDepth i - 1)

/-- Modelled from the spec: `IncrGlobalDepth` doubles the directory,
mirroring every original index `j` to `j | (1 << old_global_depth)` so
that existing bucket pointers are preserved. -/
def incrGlobalDepth (d : DirPage) : DirPage :=
  { globalDepth := d.globalDepth + 1
    localDepth := fun j =>
      if j < 2 ^ d.globalDepth then d.localDepth j else d.localDepth (j - 2 ^ d.globalDepth)
    bucketPageId := fun j =>
      if j < 2 ^ d.globalDepth then d.bucketPageId j
      else d.bucketPageId (j - 2 ^ d.globalDepth) }

/-- Modelled from the spec: `DecrGlobalDepth` halves the directory. -/
def decrGlobalDepth (d : DirPage) : DirPage :=
  { d with globalDepth := d.globalDepth - 1 }

/-- The spec's directory coalescing invariant: for all slots `i, j` of
the directory, if `i ≡ j (mod 2 ^ local_depth[i])` and the two slots have
equal local depth then they hold the same bucket page id. -/
def coalesceInv (d : DirPage) : Prop :=
  ∀ i < d.size, ∀ j < d.size,
    i % 2 ^ d.localDepth i = j % 2 ^ d.localDepth i →
    d.localDepth i = d.localDepth j →
    d.bucketPageId i = d.bucketPageId j

instance (d : DirPage) : Decidable (coalesceInv d) := by
  unfold coalesceInv; infer_instance

end DirPage

/-- State of `ExtendibleHashTable` together with the buffer pool pages it
uses: the directory page, the map from page id to bucket page content,
and the buffer pool's next unallocated page id. -/
structure HT where
  dir : DirPage
  pages : Nat → Bucket
  nextPageId : Nat

namespace HT

/-- Buffer pool `NewPage` as seen by the hash table: hand out the next
page id, zero-filled (`bcap` slots). -/
def newPage (bcap : Nat) (ht : HT) : Nat × HT :=
  (ht.nextPageId,
   { ht with
     pages := fun p => if p = ht.nextPageId then List.replicate bcap Slot.zero else ht.pages p
     nextPageId := ht.nextPageId + 1 })

/-- Overwrite the bucket stored at page id `pid`. -/
def setPage (ht : HT) (pid : Nat) (b : Bucket) : HT :=
  { ht with pages := fun p => if p = pid then b else ht.pages p }

/-- `ExtendibleHashTable::KeyToDirectoryIndex`:
`Hash(key) & GlobalDepthMask`. -/
def keyToDirectoryIndex (h : Nat → Nat) (d : DirPage) (key : Nat) : Nat :=
  Nat.land (h key) d.globalDepthMask

/-- `ExtendibleHashTable::KeyToPageId`. -/
def keyToPageId (h : Nat → Nat) (d : DirPage) (key : Nat) : Nat :=
  d.bucketPageId (keyToDirectoryIndex h d key)

/-- The `ExtendibleHashTable` constructor: create the directory page
(page id 0), raise the global depth to 1, and install two fresh bucket
pages of local depth 1 at directory slots 0 and 1. -/
def mkTable (bcap : Nat) : HT :=
  let ht0 : HT :=
    { dir := { globalDepth := 0, localDepth := fun _ => 0, bucketPageId := fun _ => 0 }
      pages := fun _ => List.replicate bcap Slot.zero
      nextPageId := 0 }
  let (_, ht1) := newPage bcap ht0
  let d1 := ht1.dir.incrGlobalDepth
  let (p0, ht2) := newPage bcap ht1
  let d2 := (d1.setBucketPageId 0 p0).setLocalDepth 0 1
  let (p1, ht3) := newPage bcap ht2
  let d3 := (d2.setBucketPageId 1 p1).setLocalDepth 1 1
  { ht3 with dir := d3 }

/-- `ExtendibleHashTable::GetValue`: fetch the key's bucket, collect the
matching values into `result`, and return `!result->empty()`. -/
def getValue (hf : Nat → Nat) (cmp : Nat → Nat → Bool) (ht : HT) (key : Nat)
    (result : List Nat) : List Nat × Bool :=
  let pid := keyToPageId hf ht.dir key
  let b := ht.pages pid
  let r := (Bucket.getValue b key cmp result).1
  (r, !r.isEmpty)

/-- Downward pointer-fix sweep of `ExtendibleHashTable::SplitInsert`:
starting from the split image index, step down by `1 << ldv`, setting the
bucket page id to the new page and the local depth to the split image's
current local depth; stop after processing the first index below the
step. -/
def splitDownSweep (newPid s ldv : Nat) : Nat → DirPage → Nat → DirPage
  | 0, d, _ => d
  | fuel + 1, d, idx =>
    let d1 := d.setBucketPageId idx newPid
    let d2 := d1.setLocalDepth idx (d1.localDepth s)
    if idx < 2 ^ ldv then d2 else splitDownSweep newPid s ldv fuel d2 (idx - 2 ^ ldv)

/-- Upward pointer-fix sweep of `ExtendibleHashTable::SplitInsert`:
from the split image index up to the directory size by steps of
`1 << ldv`.  The fuel argument only drives the structural recursion; the
call sites pass enough for the loop to run to completion. -/
def splitUpSweep (newPid s ldv size : Nat) : Nat → DirPage → Nat → DirPage
  | 0, d, _ => d
  | fuel + 1, d, idx =>
    if idx < size then
      let d1 := d.setBucketPageId idx newPid
      let d2 := d1.setLocalDepth idx (d1.localDepth s)
      splitUpSweep newPid s ldv size fuel d2 (idx + 2 ^ ldv)
    else d

/-- First phase of `ExtendibleHashTable::SplitInsert`'s directory
mutation: increment `local_depth[i]`; if it now exceeds the global
depth, expand the directory. -/
def dirSplitBase (d : DirPage) (i : Nat) : DirPage :=
  let gdOld := d.globalDepth
  let d1 := d.incrLocalDepth i
  if d1.localDepth i > gdOld then d1.incrGlobalDepth else d1

/-- Second phase of `ExtendibleHashTable::SplitInsert`'s directory
mutation: compute the split image `s`, give `s` the new local depth and
the new bucket page id `newPid`, then run the two pointer-fix sweeps.
Returns the updated directory together with `s` and the local depth mask
used to redistribute entries. -/
def dirSplitPointerFix (d2 : DirPage) (i newPid : Nat) : DirPage × Nat × Nat :=
  let s := d2.getSplitImageIndex i
  let d3 := d2.setLocalDepth s (d2.localDepth i)
  let d4 := d3.setBucketPageId s newPid
  let mask := d4.getLocalDepthMask i
  let ldv := d4.localDepth i
  let d5 := splitDownSweep newPid s ldv (s + 1) d4 s
  let d6 := splitUpSweep newPid s ldv (2 ^ d5.globalDepth) (2 ^ d5.globalDepth + 1) d5 s
  (d6, s, mask)

/-- Directory mutation performed by `ExtendibleHashTable::SplitInsert`
once it has decided to split the full bucket at directory index `i`:
the base phase followed by the pointer-fix phase. -/
def dirSplitUpdate (d : DirPage) (i newPid : Nat) : DirPage × Nat × Nat :=
  dirSplitPointerFix (dirSplitBase d i) i newPid

/-- `ExtendibleHashTable::SplitInsert`: re-check the bucket under the
exclusive table latch; on a genuine full bucket, split it, drain and
redistribute its entries using `Hash(k) & LocalDepthMask`, run the
pointer-fix sweeps, and retry the pending insert into whichever of the
two buckets the recomputed masked index selects. -/
def splitInsert (bcap : Nat) (hf : Nat → Nat) (cmp : Nat → Nat → Bool) (ht : HT)
    (key val : Nat) : HT × Bool :=
  let d := ht.dir
  let pid := keyToPageId hf d key
  let i := keyToDirectoryIndex hf d key
  let b := ht.pages pid
  let ins := Bucket.insert b key val cmp
  if ins.2 then (ht.setPage pid ins.1, true)
  else if !Bucket.isFull b then (ht, false)
  else if Bucket.isRepeat b key val cmp then (ht, false)
  else
    let (newPid, ht1) := newPage bcap ht
    let (d6, s, mask) := dirSplitUpdate d i newPid
    let (entries, bReset) := Bucket.copyMappingsAndResetPage b
    let dist := entries.foldl
      (fun (p : Bucket × Bucket) m =>
        if Nat.land (hf m.1) mask == s then (p.1, (Bucket.insert p.2 m.1 m.2 cmp).1)
        else ((Bucket.insert p.1 m.1 m.2 cmp).1, p.2))
      (bReset, ht1.pages newPid)
    let newDirectoryIdx := Nat.land (hf key) mask
    let final :=
      if newDirectoryIdx == i then
        let r := Bucket.insert dist.1 key val cmp
        (r.1, dist.2, r.2)
      else
        let r := Bucket.insert dist.2 key val cmp
        (dist.1, r.1, r.2)
    let ht2 := (ht1.setPage pid final.1).setPage newPid final.2.1
    ({ ht2 with dir := d6 }, final.2.2)

/-- `ExtendibleHashTable::Insert` (fast path): try the key's bucket; on
failure distinguish duplicate pair from full bucket and fall through to
`SplitInsert` only in the full, non-duplicate case. -/
def insert (bcap : Nat) (hf : Nat → Nat) (cmp : Nat → Nat → Bool) (ht : HT)
    (key val : Nat) : HT × Bool :=
  let d := ht.dir
  let pid := keyToPageId hf d key
  let b := ht.pages pid
  let ins := Bucket.insert b key val cmp
  if ins.2 then (ht.setPage pid ins.1, true)
  else if !Bucket.isFull b then (ht, false)
  else if Bucket.isRepeat b key val cmp then (ht, false)
  else splitInsert bcap hf cmp ht key val

/-- Downward sweep of `ExtendibleHashTable::Merge`: repoint every slot
reached from `idx` by downward steps of `1 << ldv` at the split image's
current bucket page id and local depth. -/
def mergeDownSweep (s ldv : Nat) : Nat → DirPage → Nat → DirPage
  | 0, d, _ => d
  | fuel + 1, d, idx =>
    let d1 := d.setBucketPageId idx (d.bucketPageId s)
    let d2 := d1.setLocalDepth idx (d1.localDepth s)
    if idx < 2 ^ ldv then d2 else mergeDownSweep s ldv fuel d2 (idx - 2 ^ ldv)

/-- Upward sweep of `ExtendibleHashTable::Merge`. -/
def mergeUpSweep (s ldv size : Nat) : Nat → DirPage → Nat → DirPage
  | 0, d, _ => d
  | fuel + 1, d, idx =>
    if idx < size then
      let d1 := d.setBucketPageId idx (d.bucketPageId s)
      let d2 := d1.setLocalDepth idx (d1.localDepth s)
      mergeUpSweep s ldv size fuel d2 (idx + 2 ^ ldv)
    else d

/-- Loop body iteration of `ExtendibleHashTable::Merge`, driven by
`fuel`: stop when the current bucket is non-empty, when its local depth
is at most 1, or when the split image's local depth differs; otherwise
decrement the split image's local depth, repoint every congruent slot at
the split image's bucket, decrement the global depth, recompute the
key's bucket and continue. -/
def mergeLoop (hf : Nat → Nat) (pages : Nat → Bucket) (key : Nat) :
    Nat → DirPage → Nat → Nat → DirPage
  | 0, d, _, _ => d
  | fuel + 1, d, pid, i =>
    if !(Bucket.isEmpty (pages pid)) then d
    else
      let ld := d.localDepth i
      let s := d.getSplitImageIndex i
      if ld ≤ 1 || !(ld == d.localDepth s) then d
      else
        let d1 := d.decrLocalDepth s
        let ldv := d1.localDepth s
        let d2 := mergeDownSweep s ldv (i + 1) d1 i
        let d3 := mergeUpSweep s ldv (2 ^ d2.globalDepth) (2 ^ d2.globalDepth + 1) d2 i
        let d4 := d3.decrGlobalDepth
        let pid2 := keyToPageId hf d4 key
        let i2 := keyToDirectoryIndex hf d4 key
        mergeLoop hf pages key fuel d4 pid2 i2

/-- `ExtendibleHashTable::Merge`: the coalescing loop under the
exclusive table latch.  The deleted bucket page is only removed from the
buffer pool; the directory never references it again, so `pages` is left
unchanged. -/
def merge (hf : Nat → Nat) (ht : HT) (key : Nat) : HT :=
  let d := ht.dir
  let pid := keyToPageId hf d key
  let i := keyToDirectoryIndex hf d key
  { ht with dir := mergeLoop hf ht.pages key (d.globalDepth + 2) d pid i }

/-- `ExtendibleHashTable::Remove`: remove from the key's bucket; on
success call `Merge`. -/
def remove (hf : Nat → Nat) (cmp : Nat → Nat → Bool) (ht : HT) (key val : Nat) :
    HT × Bool :=
  let pid := keyToPageId hf ht.dir key
  let b := ht.pages pid
  let r := Bucket.remove b key val cmp
  if !r.2 then (ht, false)
  else (merge hf (ht.setPage pid r.1) key, true)

end HT

namespace LRUReplacer

/-- `LRUReplacer::Victim`: pop the head of `frame_id_list_` (least
recently unpinned); none if empty. -/
def victim (l : List Nat) : Option Nat × List Nat :=
  match l with
  | [] => (none, [])
  | h :: t => (some h, t)

/-- `LRUReplacer::Pin`: remove the frame from the list if present. -/
def pin (l : List Nat) (f : Nat) : List Nat :=
  if l.isEmpty then l else l.erase f

/-- `LRUReplacer::Unpin`: append the frame at the tail unless already
present. -/
def unpin (l : List Nat) (f : Nat) : List Nat :=
  if l.contains f then l else l ++ [f]

end LRUReplacer

/-- One frame of a buffer pool instance: the `Page` metadata that the
claims observe (`page_id_`, `pin_count_`, `is_dirty_`); page ids are
`Int` so that `INVALID_PAGE_ID = -1` is representable. -/
structure Frame where
  pageId : Int
  pinCount : Nat
  isDirty : Bool
  deriving DecidableEq, Repr

/-- A default-constructed `Page`: invalid id, pin count zero, clean. -/
def Frame.init : Frame := ⟨-1, 0, false⟩

/-- State of one `BufferPoolManagerInstance`: the frame array, the page
table (association list `page_id → frame_id`), the free list, the
replacer's eviction list, and the strided allocation counter. -/
structure BPI where
  poolSize : Nat
  numInstances : Nat
  instanceIndex : Nat
  nextPageId : Int
  pages : List Frame
  pageTable : List (Int × Nat)
  freeList : List Nat
  replacer : List Nat
  deriving DecidableEq, Repr

namespace BPI

/-- The `BufferPoolManagerInstance` constructor: every frame starts in
the free list, page table and replacer empty, allocation counter at the
instance index. -/
def init (poolSize numInstances instanceIndex : Nat) : BPI :=
  { poolSize := poolSize
    numInstances := numInstances
    instanceIndex := instanceIndex
    nextPageId := instanceIndex
    pages := List.replicate poolSize Frame.init
    pageTable := []
    freeList := List.range poolSize
    replacer := [] }

/-- Look up `page_table_` for a page id. -/
def lookup (t : List (Int × Nat)) (pid : Int) : Option Nat :=
  match t with
  | [] => none
  | e :: rest => if e.1 == pid then some e.2 else lookup rest pid

/-- `page_table_.erase(page_id)`: drop the entry for the key. -/
def tableErase (t : List (Int × Nat)) (pid : Int) : List (Int × Nat) :=
  t.filter (fun e => !(e.1 == pid))

/-- `BufferPoolManagerInstance::AllocatePage`: hand out the strided
counter and advance it by the number of instances. -/
def allocatePage (s : BPI) : Int × BPI :=
  (s.nextPageId, { s with nextPageId := s.nextPageId + s.numInstances })

/-- Frame selection shared by `NewPgImp` and `FetchPgImp`: prefer the
back of the free list, else take the replacer's victim.  Only called
when one of the two is non-empty. -/
def pickFrame (s : BPI) : Nat × BPI :=
  if !s.freeList.isEmpty then
    ((s.freeList.getLast?).getD 0, { s with freeList := s.freeList.dropLast })
  else
    match LRUReplacer.victim s.replacer with
    | (some f, rep) => (f, { s with replacer := rep })
    | (none, rep) => (0, { s with replacer := rep })

/-- `BufferPoolManagerInstance::NewPgImp`: fail when the free list is
empty and the replacer holds nothing; otherwise allocate a page id, take
a frame (free list first), flush the previous occupant if dirty, evict
it from the page table, reset the frame with pin count 1, pin it in the
replacer, and install the new page in the page table. -/
def newPage (s : BPI) : Option Int × BPI :=
  if s.freeList.isEmpty && s.replacer.length == 0 then (none, s)
  else
    let (pid, s1) := allocatePage s
    let (fid, s2) := pickFrame s1
    let fr := s2.pages.getD fid Frame.init
    let fr1 := if fr.isDirty then { fr with isDirty := false } else fr
    let s3 := { s2 with pageTable := tableErase s2.pageTable fr.pageId }
    let fr2 := { fr1 with pageId := pid, pinCount := 1 }
    let s4 := { s3 with
      pages := s3.pages.set fid fr2
      replacer := LRUReplacer.pin s3.replacer fid }
    let s5 := { s4 with pageTable := (pid, fid) :: s4.pageTable }
    (some pid, s5)

/-- `BufferPoolManagerInstance::FetchPgImp`: a resident page is pinned
(replacer `Pin`, `pin_count_++`); otherwise a frame is selected as in
`NewPgImp`, the old occupant flushed if dirty, the new page installed
(insert before erasing the old id, as the source does) and its pin count
incremented. -/
def fetchPage (s : BPI) (pid : Int) : Option Nat × BPI :=
  match lookup s.pageTable pid with
  | some fid =>
    let fr := s.pages.getD fid Frame.init
    let s1 := { s with
      replacer := LRUReplacer.pin s.replacer fid
      pages := s.pages.set fid { fr with pinCount := fr.pinCount + 1 } }
    (some fid, s1)
  | none =>
    if s.freeList.isEmpty && s.replacer.length == 0 then (none, s)
    else
      let (fid, s2) := pickFrame s
      let fr := s2.pages.getD fid Frame.init
      let fr1 := if fr.isDirty then { fr with isDirty := false } else fr
      let s3 := { s2 with pageTable := (pid, fid) :: s2.pageTable }
      let s4 := { s3 with pageTable := tableErase s3.pageTable fr.pageId }
      let fr2 := { fr1 with pageId := pid, pinCount := fr1.pinCount + 1 }
      let s5 := { s4 with
        pages := s4.pages.set fid fr2
        replacer := LRUReplacer.pin s4.replacer fid }
      (some fid, s5)

/-- `BufferPoolManagerInstance::UnpinPgImp`: fail for a non-resident
page; otherwise first fold the `is_dirty` argument into the frame, THEN
fail if `pin_count` is already zero; else decrement and, on reaching
zero, hand the frame to the replacer. -/
def unpinPage (s : BPI) (pid : Int) (isDirty : Bool) : Bool × BPI :=
  match lookup s.pageTable pid with
  | none => (false, s)
  | some fid =>
    let fr := s.pages.getD fid Frame.init
    let fr1 := if isDirty then { fr with isDirty := true } else fr
    if fr1.pinCount == 0 then (false, { s with pages := s.pages.set fid fr1 })
    else
      let fr2 := { fr1 with pinCount := fr1.pinCount - 1 }
      let s1 := { s with pages := s.pages.set fid fr2 }
      if fr2.pinCount == 0 then
        (true, { s1 with replacer := LRUReplacer.unpin s1.replacer fid })
      else (true, s1)

/-- `BufferPoolManagerInstance::FlushPgImp`: write the resident page to
disk (not modelled) and clear the dirty bit; fail only when the page is
not resident. -/
def flushPage (s : BPI) (pid : Int) : Bool × BPI :=
  match lookup s.pageTable pid with
  | none => (false, s)
  | some fid =>
    let fr := s.pages.getD fid Frame.init
    (true, { s with pages := s.pages.set fid { fr with isDirty := false } })

/-- `BufferPoolManagerInstance::FlushAllPgsImp`: write every frame and
clear every dirty bit. -/
def flushAllPages (s : BPI) : BPI :=
  { s with pages := s.pages.map (fun fr => { fr with isDirty := false }) }

/-- `BufferPoolManagerInstance::DeletePgImp`: absent pages succeed
trivially; a pinned page fails; otherwise the page leaves the page
table, the frame is reset and pushed onto the free list.  The source
never removes the frame from the replacer. -/
def deletePage (s : BPI) (pid : Int) : Bool × BPI :=
  match lookup s.pageTable pid with
  | none => (true, s)
  | some fid =>
    let fr := s.pages.getD fid Frame.init
    if !(fr.pinCount == 0) then (false, s)
    else
      let fr2 := { fr with pageId := -1, isDirty := false }
      (true, { s with
        pageTable := tableErase s.pageTable pid
        pages := s.pages.set fid fr2
        freeList := s.freeList ++ [fid] })

end BPI

namespace ParallelBPM

/-- `ParallelBufferPoolManager::GetPoolSize`: the combined size of all
instances. -/
def getPoolSize (numInstances poolSize : Nat) : Nat := numInstances * poolSize

/-- `ParallelBufferPoolManager::GetBufferPoolManager`: the instance
index the manager computes for a page id —
`page_id % GetPoolSize()`. -/
def routeIndex (numInstances poolSize : Nat) (pageId : Int) : Int :=
  pageId % (getPoolSize numInstances poolSize : Nat)

/-- The j-th page id handed out by instance `k`'s strided
`AllocatePage` counter (`next_page_id_` starts at the instance index and
advances by the number of instances). -/
def allocatedId (numInstances k j : Nat) : Int :=
  (k : Int) + (j : Int) * (numInstances : Int)

end ParallelBPM

/-- Transaction lifecycle states. -/
inductive TxnState where
  | growing | shrinking | committed | aborted
  deriving DecidableEq, Repr

/-- Isolation levels. -/
inductive IsoLevel where
  | readUncommitted | readCommitted | repeatableRead
  deriving DecidableEq, Repr

/-- Lock request modes. -/
inductive LockMode where
  | shared | exclusive
  deriving DecidableEq, Repr

/-- Reasons carried by `TransactionAbortException` in the paths the
claims exercise. -/
inductive AbortReason where
  | lockOnShrinking | locksharedOnReadUncommitted
  deriving DecidableEq, Repr

/-- Modelled from the spec for the missing `lock_manager.h`:
`LockRequest{txn_id, mode, granted}`; a freshly appended request is not
granted. -/
structure LockRequest where
  txnId : Nat
  mode : LockMode
  granted : Bool
  deriving DecidableEq, Repr

/-- The transaction state the lock manager reads and mutates: lifecycle
state, isolation level, and the shared/exclusive lock sets. -/
structure TxnRec where
  state : TxnState
  iso : IsoLevel
  shared : List Nat
  excl : List Nat
  deriving DecidableEq, Repr

/-- A fresh transaction: GROWING, no locks. -/
def TxnRec.mk0 (iso : IsoLevel) : TxnRec := ⟨.growing, iso, [], []⟩

/-- Combined state of the lock manager and the transaction registry:
per-RID request queues with their `upgrading_` marker, and the
transaction table consulted through
`TransactionManager::GetTransaction`. -/
structure LMWorld where
  txns : Nat → TxnRec
  queue : Nat → List LockRequest
  upgrading : Nat → Option Nat

/-- Result of a lock manager call: a boolean return, a thrown
`TransactionAbortException`, or parking on the queue's condition
variable. -/
inductive LockOutcome where
  | ret (b : Bool)
  | exc (r : AbortReason)
  | blocked
  deriving DecidableEq, Repr

namespace LM

/-- Replace one transaction's record. -/
def setTxn (w : LMWorld) (tid : Nat) (t : TxnRec) : LMWorld :=
  { w with txns := fun j => if j = tid then t else w.txns j }

/-- Replace one RID's request queue. -/
def setQueue (w : LMWorld) (rid : Nat) (q : List LockRequest) : LMWorld :=
  { w with queue := fun r => if r = rid then q else w.queue r }

/-- Replace one RID's `upgrading_` marker. -/
def setUpgrading (w : LMWorld) (rid : Nat) (u : Option Nat) : LMWorld :=
  { w with upgrading := fun r => if r = rid then u else w.upgrading r }

/-- Set a transaction's lifecycle state. -/
def setState (w : LMWorld) (tid : Nat) (st : TxnState) : LMWorld :=
  setTxn w tid { w.txns tid with state := st }

/-- The wound-wait scan of `LockManager::NeedWait`: walk the queue up to
the caller's own request; wound (abort and remove) each younger
transaction whose request conflicts with the requested mode, unless it
is already aborted; an older request forces waiting when either side is
exclusive.  Returns (need_wait, occur_abort, remaining queue, updated
transaction table). -/
def needWaitScan (tid : Nat) (mode : LockMode) :
    (Nat → TxnRec) → List LockRequest → Bool × Bool × List LockRequest × (Nat → TxnRec)
  | txns, [] => (false, false, [], txns)
  | txns, r :: rest =>
    if r.txnId == tid then (false, false, r :: rest, txns)
    else if r.txnId > tid then
      if (mode == .shared && r.mode == .exclusive) || mode == .exclusive then
        if (txns r.txnId).state != .aborted then
          let txns1 := fun j => if j = r.txnId then { txns r.txnId with state := .aborted } else txns j
          let (nw, _, q, tx2) := needWaitScan tid mode txns1 rest
          (nw, true, q, tx2)
        else
          let (nw, oc, q, tx2) := needWaitScan tid mode txns rest
          (nw, oc, r :: q, tx2)
      else
        let (nw, oc, q, tx2) := needWaitScan tid mode txns rest
        (nw, oc, r :: q, tx2)
    else
      let w1 := (mode == LockMode.exclusive) || (r.mode == LockMode.exclusive)
      let (nw, oc, q, tx2) := needWaitScan tid mode txns rest
      (nw || w1, oc, r :: q, tx2)

/-- `LockManager::NeedWait`: a first pass over the whole queue checks
whether any granted request conflicts; only then does the wound-wait
scan run, mutating the queue and the wounded transactions. -/
def needWait (w : LMWorld) (tid rid : Nat) (mode : LockMode) : Bool × LMWorld :=
  let q := w.queue rid
  let conflict := q.any (fun r =>
    if mode == LockMode.shared then r.granted && r.mode == LockMode.exclusive else r.granted)
  if !conflict then (false, w)
  else
    let (nw, _, q2, tx2) := needWaitScan tid mode w.txns q
    (nw, { setQueue w rid q2 with txns := tx2 })

/-- The scan of `LockManager::NeedWaitForUpgrade`: walk up to the
caller's own request; every younger transaction ahead is aborted
unconditionally and its request removed; every older one forces
waiting. -/
def needWaitForUpgradeScan (tid : Nat) :
    (Nat → TxnRec) → List LockRequest → Bool × List LockRequest × (Nat → TxnRec)
  | txns, [] => (false, [], txns)
  | txns, r :: rest =>
    if r.txnId == tid then (false, r :: rest, txns)
    else if r.txnId > tid then
      let txns1 := fun j => if j = r.txnId then { txns r.txnId with state := .aborted } else txns j
      let (nw, q, tx2) := needWaitForUpgradeScan tid txns1 rest
      (nw, q, tx2)
    else
      let (nw, q, tx2) := needWaitForUpgradeScan tid txns rest
      (true || nw, r :: q, tx2)

/-- `LockManager::NeedWaitForUpgrade`. -/
def needWaitForUpgrade (w : LMWorld) (tid rid : Nat) : Bool × LMWorld :=
  let (nw, q2, tx2) := needWaitForUpgradeScan tid w.txns (w.queue rid)
  (nw, { setQueue w rid q2 with txns := tx2 })

/-- Mark every request of the given transaction granted (the grant loop
of `LockShared`/`LockExclusive`). -/
def grantAll (q : List LockRequest) (tid : Nat) : List LockRequest :=
  q.map (fun r => if r.txnId == tid then { r with granted := true } else r)

/-- `LockManager::LockShared`. -/
def lockShared (w : LMWorld) (tid rid : Nat) : LockOutcome × LMWorld :=
  let t := w.txns tid
  if t.state == .aborted then (.ret false, w)
  else if t.state == .shrinking && t.iso == .repeatableRead then
    (.exc .lockOnShrinking, setState w tid .aborted)
  else if t.iso == .readUncommitted then
    (.exc .locksharedOnReadUncommitted, setState w tid .aborted)
  else if t.shared.contains rid then (.ret true, w)
  else
    let w1 := setQueue w rid (w.queue rid ++ [⟨tid, .shared, false⟩])
    let (nw, w2) := needWait w1 tid rid .shared
    if nw then (.blocked, w2)
    else
      let w3 := setQueue w2 rid (grantAll (w2.queue rid) tid)
      let t3 := w3.txns tid
      let w4 := setTxn w3 tid { t3 with state := .growing, shared := rid :: t3.shared }
      (.ret true, w4)

/-- `LockManager::LockExclusive`. -/
def lockExclusive (w : LMWorld) (tid rid : Nat) : LockOutcome × LMWorld :=
  let t := w.txns tid
  if t.state == .aborted then (.ret false, w)
  else if t.state == .shrinking && t.iso == .repeatableRead then
    (.exc .lockOnShrinking, setState w tid .aborted)
  else if t.excl.contains rid then (.ret true, w)
  else
    let w1 := setQueue w rid (w.queue rid ++ [⟨tid, .exclusive, false⟩])
    let (nw, w2) := needWait w1 tid rid .exclusive
    if nw then (.blocked, w2)
    else
      let w3 := setQueue w2 rid (grantAll (w2.queue rid) tid)
      let t3 := w3.txns tid
      let w4 := setTxn w3 tid { t3 with state := .growing, excl := rid :: t3.excl }
      (.ret true, w4)

/-- The grant loop of `LockUpgrade`: convert the caller's first request
to a granted exclusive one and clear `upgrading_` when found. -/
def grantUpgrade (tid : Nat) : List LockRequest → List LockRequest × Bool
  | [] => ([], false)
  | r :: rest =>
    if r.txnId == tid then ({ r with granted := true, mode := .exclusive } :: rest, true)
    else
      let (q, f) := grantUpgrade tid rest
      (r :: q, f)

/-- `LockManager::LockUpgrade`. -/
def lockUpgrade (w : LMWorld) (tid rid : Nat) : LockOutcome × LMWorld :=
  let t := w.txns tid
  if t.state == .aborted || !(t.shared.contains rid) || (w.upgrading rid).isSome then
    (.ret false, w)
  else if t.excl.contains rid then (.ret true, w)
  else if t.state == .shrinking then (.exc .lockOnShrinking, setState w tid .aborted)
  else
    let w1 := setUpgrading w rid (some tid)
    let (nw, w2) := needWaitForUpgrade w1 tid rid
    if nw then (.blocked, w2)
    else
      let (q2, found) := grantUpgrade tid (w2.queue rid)
      let w3 := setQueue w2 rid q2
      let w4 := if found then setUpgrading w3 rid none else w3
      let t4 := w4.txns tid
      let w5 := setTxn w4 tid
        { t4 with state := .growing, excl := rid :: t4.excl, shared := t4.shared.erase rid }
      (.ret true, w5)

/-- Erase the caller's first request from the queue (the erase loop of
`Unlock`); reports whether one was found. -/
def eraseReq (tid : Nat) : List LockRequest → List LockRequest × Bool
  | [] => ([], false)
  | r :: rest =>
    if r.txnId == tid then (rest, true)
    else
      let (q, f) := eraseReq tid rest
      (r :: q, f)

/-- `LockManager::Unlock`: fail when neither lock set holds the RID or
the queue holds no request; otherwise remove the request, move a GROWING
REPEATABLE_READ transaction to SHRINKING, and clear the RID from both
lock sets. -/
def unlock (w : LMWorld) (tid rid : Nat) : LockOutcome × LMWorld :=
  let t := w.txns tid
  if !(t.excl.contains rid) && !(t.shared.contains rid) then (.ret false, w)
  else
    let (q2, found) := eraseReq tid (w.queue rid)
    if !found then (.ret false, w)
    else
      let w1 := setQueue w rid q2
      let t1 := w1.txns tid
      let t2 :=
        if t1.iso == .repeatableRead && t1.state == .growing then { t1 with state := .shrinking }
        else t1
      let w2 := setTxn w1 tid { t2 with excl := t2.excl.erase rid, shared := t2.shared.erase rid }
      (.ret true, w2)

end LM

/-! Auxiliary predicates and concrete states used by the theorems. -/

/-- The comparator of the `<int, int, IntComparator>` instantiation:
`cmp(a, b) == 0` exactly when the keys are equal. -/
def natCmp : Nat → Nat → Bool := fun a b => a == b

/-- A concrete `HashFunction` instantiation: the identity hash. -/
def idHash : Nat → Nat := fun k => k

/-- The values a single bucket `GetValue` call appends: the values of
the readable, key-matching slots that lie before the first non-occupied
slot (the region the occupied-break scan visits), in slot order. -/
def liveScanValues (b : Bucket) (key : Nat) (cmp : Nat → Nat → Bool) : List Nat :=
  ((b.takeWhile (fun s => s.occ)).filter (fun s => s.rd && cmp s.key key)).map
    (fun s => s.val)

/-- Occupied bit of slot `i` (false beyond the array). -/
def occAt (b : Bucket) (i : Nat) : Bool := (b.getD i Slot.zero).occ

/-- Readable bit of slot `i` (false beyond the array). -/
def rdAt (b : Bucket) (i : Nat) : Bool := (b.getD i Slot.zero).rd

/-- The occupied bits form a contiguous region at the start of the slot
array: occupancy is downward closed over slot indices. -/
def occDownClosed (b : Bucket) : Prop :=
  ∀ i j : Nat, i ≤ j → occAt b j = true → occAt b i = true

/-- Every readable slot is occupied. -/
def rdSubOcc (b : Bucket) : Prop :=
  ∀ i : Nat, rdAt b i = true → occAt b i = true

/-- Bucket-page states reachable from the all-zero page by `Insert`,
`Remove` and `CopyMappingsAndResetPage`. -/
inductive BucketReach (n : Nat) : Bucket → Prop where
  | init : BucketReach n (List.replicate n Slot.zero)
  | ins {b : Bucket} (key val : Nat) (cmp : Nat → Nat → Bool) :
      BucketReach n b → BucketReach n (Bucket.insert b key val cmp).1
  | rem {b : Bucket} (key val : Nat) (cmp : Nat → Nat → Bool) :
      BucketReach n b → BucketReach n (Bucket.remove b key val cmp).1
  | reset {b : Bucket} :
      BucketReach n b → BucketReach n (Bucket.copyMappingsAndResetPage b).2

/-- An all-empty four-slot bucket. -/
def bEmpty4 : Bucket := List.replicate 4 Slot.zero

/-- A four-slot bucket with a readable matching slot hidden behind a
non-occupied gap at slot 1 (such a state is not reachable through the
bucket operations, but claim C9 quantifies over every bucket-page
state). -/
def bGap : Bucket :=
  [⟨true, true, 1, 10⟩, Slot.zero, ⟨true, true, 1, 11⟩, Slot.zero]

/-- A reachable pre-split directory: global depth 3, the even slots
share one depth-1 bucket (page 1) while the odd side has been split
twice (depth-3 singletons at slots 1 and 5, a depth-2 pair at slots 3
and 7). -/
def dirC2 : DirPage :=
  { globalDepth := 3
    localDepth := fun j => [1, 3, 1, 2, 1, 3, 1, 2].getD j 0
    bucketPageId := fun j => [1, 2, 1, 3, 1, 4, 1, 3].getD j 0 }

/-- A directory of global depth 2 whose four slots hold four distinct
buckets of local depth 2. -/
def dirC3 : DirPage :=
  { globalDepth := 2
    localDepth := fun j => [2, 2, 2, 2].getD j 0
    bucketPageId := fun j => [1, 2, 3, 4].getD j 0 }

/-- Bucket contents for the merge scenario: page 2 holds one live entry
with hash residue 1; every other page (page 4, the bucket being
removed from, among them) is empty. -/
def pagesC3 : Nat → Bucket := fun p =>
  if p = 2 then [⟨true, true, 1, 11⟩, Slot.zero, Slot.zero, Slot.zero]
  else List.replicate 4 Slot.zero

/-- The hash table state on which `Merge` runs for claim C3. -/
def htC3 : HT := { dir := dirC3, pages := pagesC3, nextPageId := 5 }

/-- Keys driving the hash table into the split-bug state: the odd side
is split twice (global depth reaches 3) and the even bucket is filled to
capacity (bucket capacity 4, identity hash, value `key + 100`). -/
def c4Step (ht : HT) (k : Nat) : HT := (HT.insert 4 idHash natCmp ht k (k + 100)).1

/-- The reachable hash table state right before the failing insert:
global depth 3, slots 0/2/4/6 all point at the full depth-1 bucket. -/
def htC4 : HT := [1, 3, 5, 7, 9, 13, 17, 0, 2, 4, 6].foldl c4Step (HT.mkTable 4)

/-- A single-frame buffer pool instance, freshly constructed. -/
def bpiA : BPI := BPI.init 1 1 0

/-- After `NewPage` (allocates page 0 into frame 0, pinned). -/
def bpiB : BPI := (BPI.newPage bpiA).2

/-- After `UnpinPage(0, false)`: frame 0 resident with pin count 0,
sitting in the replacer. -/
def bpiC : BPI := (BPI.unpinPage bpiB 0 false).2

/-- A lock manager world whose transactions are all fresh
REPEATABLE_READ transactions. -/
def rrWorld : LMWorld :=
  { txns := fun _ => TxnRec.mk0 .repeatableRead
    queue := fun _ => []
    upgrading := fun _ => none }

/-- Older transaction 1 takes a shared lock on rid 5 first. -/
def c7A : LMWorld := (LM.lockShared rrWorld 1 5).2

/-- Younger transaction 2 also takes a shared lock on rid 5; the queue
is now `[T1 shared granted, T2 shared granted]`. -/
def c7B : LMWorld := (LM.lockShared c7A 2 5).2

/-- The same two shared locks acquired in the other order, so the queue
is `[T2 shared granted, T1 shared granted]`. -/
def c7A2 : LMWorld := (LM.lockShared rrWorld 2 5).2

/-- Completed second acquisition for the reversed order. -/
def c7B2 : LMWorld := (LM.lockShared c7A2 1 5).2

/-- A world whose transactions are all SHRINKING REPEATABLE_READ
transactions. -/
def shrWorld : LMWorld :=
  { txns := fun _ => ⟨.shrinking, .repeatableRead, [], []⟩
    queue := fun _ => []
    upgrading := fun _ => none }

/-! Theorems settling the claims. -/

/-- Claim C1: the parallel buffer pool is supposed to forward every
operation on page `p` to instance `p mod N`, and the strided allocator
of instance `k` indeed only hands out ids congruent to `k mod N` — but
`GetBufferPoolManager` computes `page_id % GetPoolSize()`, i.e. modulo
`N * pool_size`.  With `N = 4` and `pool_size = 10`, the id 13 allocated
by instance 1 (its fourth allocation) is routed to "instance" 13, which
does not exist, instead of instance `13 mod 4 = 1`. -/
theorem c1_parallel_routing_bug :
    ParallelBPM.allocatedId 4 1 3 = 13 ∧
    (13 : Int) % 4 = 1 ∧
    ParallelBPM.getPoolSize 4 10 = 40 ∧
    ParallelBPM.routeIndex 4 10 13 = 13 ∧
    ¬ ParallelBPM.routeIndex 4 10 13 = 1 := by decide

/-- Claim C2, counterexample: on a reachable directory satisfying the
coalescing invariant (global depth 3, even slots sharing a depth-1
bucket), splitting the bucket at directory index `i = 4` yields the new
local depth 2 and split image `s = 6`; slot 0 has the same low two bits
as `i`, so by the claim it must carry the incremented local depth 2 —
but the code leaves its local depth at 1. -/
theorem c2_counterexample :
    DirPage.coalesceInv dirC2 ∧
    dirC2.localDepth 4 + 1 = 2 ∧
    (HT.dirSplitUpdate dirC2 4 5).2.1 = 6 ∧
    0 % 2 ^ 2 = 4 % 2 ^ 2 ∧
    (HT.dirSplitUpdate dirC2 4 5).1.localDepth 4 = 2 ∧
    (HT.dirSplitUpdate dirC2 4 5).1.bucketPageId 0 = dirC2.bucketPageId 0 ∧
    (HT.dirSplitUpdate dirC2 4 5).1.localDepth 0 = 1 := by decide

/-- Claim C3: on a merge-eligible state (directory of global depth 2
with four distinct depth-2 buckets, the removed-from bucket at slot 3
empty), the merge iteration coalesces slot 3 into its split image
(slot 1's depth drops to 1) — after which slot 0 still has local depth
2, equal to the global depth, so the claim requires the global depth to
stay 2; the code decrements it to 1 unconditionally. -/
theorem c3_merge_decrements_unconditionally :
    DirPage.coalesceInv dirC3 ∧
    Bucket.isEmpty (htC3.pages (HT.keyToPageId idHash dirC3 3)) = true ∧
    dirC3.globalDepth = 2 ∧
    (HT.merge idHash htC3 3).dir.localDepth 1 = 1 ∧
    (HT.merge idHash htC3 3).dir.localDepth 0 = 2 ∧
    (HT.merge idHash htC3 3).dir.globalDepth = 1 := by decide

/-- Claim C4: on the reachable state `htC4` (eleven inserts from the
initial table, bucket capacity 4, identity hash), `Insert(12, 112)`
returns true via `SplitInsert`, yet the immediately following
`GetValue(12)` with an empty output vector finds nothing: the
redistribution compares `hash & local_depth_mask` (at most 3) against
the unmasked directory index 4 and split image 6, so the key is placed
in the new bucket while directory slot 4 keeps pointing at the old
one. -/
theorem c4_insert_getValue_roundtrip_fails :
    (HT.insert 4 idHash natCmp htC4 12 112).2 = true ∧
    (HT.getValue idHash natCmp (HT.insert 4 idHash natCmp htC4 12 112).1 12 []).1 = [] ∧
    (HT.getValue idHash natCmp (HT.insert 4 idHash natCmp htC4 12 112).1 12 []).2 = false := by
  decide

/-- Claim C5, counterexample: pool size 1; `NewPage`, `UnpinPage(0,
false)`, then `DeletePage(0)` succeeds and leaves frame 0 in the free
list while it is still in the replacer — two of the three states at
once, refuting the exactly-one partition. -/
theorem c5_counterexample :
    (BPI.deletePage bpiC 0).1 = true ∧
    (0 : Nat) ∈ (BPI.deletePage bpiC 0).2.freeList ∧
    (0 : Nat) ∈ (BPI.deletePage bpiC 0).2.replacer ∧
    ((BPI.deletePage bpiC 0).2.pages.getD 0 Frame.init).pinCount = 0 := by decide

/-- Claim C6, counterexample: on the reachable state `bpiC` (page 0
resident with pin count 0, clean), the failing call `UnpinPage(0, true)`
returns false but sets the page's dirty bit. -/
theorem c6_counterexample :
    (BPI.unpinPage bpiC 0 true).1 = false ∧
    (bpiC.pages.getD 0 Frame.init).isDirty = false ∧
    ((BPI.unpinPage bpiC 0 true).2.pages.getD 0 Frame.init).isDirty = true := by decide

/-- Claim C7, counterexample: transactions 1 (older) and 2 (younger)
both hold granted shared locks on rid 5, with T1's request first in the
queue.  T1's `LockUpgrade` succeeds immediately, but T2 is neither
removed from the queue nor aborted: the wound-wait scan only covers
requests ahead of the upgrader's own queue position. -/
theorem c7_counterexample :
    c7B.queue 5 = [⟨1, .shared, true⟩, ⟨2, .shared, true⟩] ∧
    (LM.lockUpgrade c7B 1 5).1 = .ret true ∧
    (LM.lockUpgrade c7B 1 5).2.queue 5 = [⟨1, .exclusive, true⟩, ⟨2, .shared, true⟩] ∧
    ((LM.lockUpgrade c7B 1 5).2.txns 2).state = .growing := by decide

/-- Claim C5 (amended): the three frame states are not a partition.
`DeletePage` on a resident page with pin count 0 whose frame sits in the
replacer succeeds and pushes the frame onto the free list while leaving
it in the replacer as well — the frame is in two of the three states at
once. -/
theorem c5_delete_keeps_replacer (s : BPI) (pid : Int) (fid : Nat)
    (h1 : BPI.lookup s.pageTable pid = some fid)
    (h2 : (s.pages.getD fid Frame.init).pinCount = 0)
    (h3 : fid ∈ s.replacer) :
    (BPI.deletePage s pid).1 = true ∧
    fid ∈ (BPI.deletePage s pid).2.freeList ∧
    fid ∈ (BPI.deletePage s pid).2.replacer := by
  have h2a : (s.pages[fid]?.getD Frame.init).pinCount = 0 := by
    simpa [List.getD] using h2
  simp [BPI.deletePage, h1, h2a, h3]

/-- Claim C5, witness: the amended statement at the concrete reachable
state `bpiC`. -/
theorem c5_delete_keeps_replacer_witness :
    (BPI.lookup bpiC.pageTable 0 = some 0 ∧
     (bpiC.pages.getD 0 Frame.init).pinCount = 0 ∧ 0 ∈ bpiC.replacer) ∧
    ((BPI.deletePage bpiC 0).1 = true ∧
     0 ∈ (BPI.deletePage bpiC 0).2.freeList ∧
     0 ∈ (BPI.deletePage bpiC 0).2.replacer) :=
  ⟨⟨by decide, by decide, by decide⟩,
   c5_delete_keeps_replacer bpiC 0 0 (by decide) (by decide) (by decide)⟩

/-- Claim C6 (amended): `UnpinPage` returns false when the page is not
resident (leaving the state unchanged) or when its pin count is 0 — but
in the resident case the call merges the `is_dirty` argument into the
frame's dirty bit before the pin-count check, so a failed call with
`is_dirty = true` does set the page's dirty bit. -/
theorem c6_unpin_failure (s : BPI) (pid : Int) (isDirty : Bool) :
    (BPI.lookup s.pageTable pid = none → BPI.unpinPage s pid isDirty = (false, s)) ∧
    (∀ fid, BPI.lookup s.pageTable pid = some fid →
      (s.pages.getD fid Frame.init).pinCount = 0 →
      BPI.unpinPage s pid isDirty =
        (false,
          { s with
            pages := s.pages.set fid
                (if isDirty then { s.pages.getD fid Frame.init with isDirty := true }
                  else s.pages.getD fid Frame.init) })) := by
  constructor
  · intro h
    simp [BPI.unpinPage, h]
  · intro fid h1 h2
    have h2a : (s.pages[fid]?.getD Frame.init).pinCount = 0 := by
      simpa [List.getD] using h2
    cases isDirty <;> simp [BPI.unpinPage, List.getD, h1, h2a]

/-- Claim C6, witness: the amended statement at the concrete reachable
state `bpiC` with `is_dirty = true`. -/
theorem c6_unpin_failure_witness :
    (BPI.lookup bpiC.pageTable 0 = some 0 ∧
     (bpiC.pages.getD 0 Frame.init).pinCount = 0) ∧
    BPI.unpinPage bpiC 0 true =
      (false,
        { bpiC with
          pages := bpiC.pages.set 0
              (if true then { bpiC.pages.getD 0 Frame.init with isDirty := true }
                else bpiC.pages.getD 0 Frame.init) }) :=
  ⟨⟨by decide, by decide⟩, (c6_unpin_failure bpiC 0 true).2 0 (by decide) (by decide)⟩

/-- Claim C8: under REPEATABLE_READ the first `Unlock` moves a GROWING
transaction to SHRINKING, and any later `LockShared` or `LockExclusive`
throws `TransactionAbortException{LOCK_ON_SHRINKING}` and sets the
transaction's state to ABORTED; the concrete sequence
`LockShared(rid1); LockExclusive(rid2); Unlock(rid1); LockShared(rid3)`
ends with the exception raised and the state ABORTED. -/
theorem c8_lock_on_shrinking :
    (∀ (w : LMWorld) (tid rid : Nat),
      (w.txns tid).state = .shrinking → (w.txns tid).iso = .repeatableRead →
      LM.lockShared w tid rid = (.exc .lockOnShrinking, LM.setState w tid .aborted) ∧
      LM.lockExclusive w tid rid = (.exc .lockOnShrinking, LM.setState w tid .aborted)) ∧
    ((LM.lockShared rrWorld 0 1).1 = .ret true ∧
     (LM.lockExclusive (LM.lockShared rrWorld 0 1).2 0 2).1 = .ret true ∧
     (LM.unlock (LM.lockExclusive (LM.lockShared rrWorld 0 1).2 0 2).2 0 1).1 = .ret true ∧
     ((LM.unlock (LM.lockExclusive (LM.lockShared rrWorld 0 1).2 0 2).2 0 1).2.txns 0).state
        = .shrinking ∧
     (LM.lockShared (LM.unlock (LM.lockExclusive (LM.lockShared rrWorld 0 1).2 0 2).2 0 1).2
        0 3).1 = .exc .lockOnShrinking ∧
     ((LM.lockShared (LM.unlock (LM.lockExclusive (LM.lockShared rrWorld 0 1).2 0 2).2 0 1).2
        0 3).2.txns 0).state = .aborted) := by
  constructor
  · intro w tid rid h1 h2
    constructor
    · simp [LM.lockShared, h1, h2]
    · simp [LM.lockExclusive, h1, h2]
  · exact ⟨by decide, by decide, by decide, by decide, by decide, by decide⟩

/-- Claim C8, witness: the shrinking-rejection part applied at a
concrete SHRINKING REPEATABLE_READ world. -/
theorem c8_lock_on_shrinking_witness :
    ((shrWorld.txns 0).state = .shrinking ∧ (shrWorld.txns 0).iso = .repeatableRead) ∧
    (LM.lockShared shrWorld 0 9 = (.exc .lockOnShrinking, LM.setState shrWorld 0 .aborted) ∧
     LM.lockExclusive shrWorld 0 9 = (.exc .lockOnShrinking, LM.setState shrWorld 0 .aborted)) :=
  ⟨⟨by decide, by decide⟩, c8_lock_on_shrinking.1 shrWorld 0 9 (by decide) (by decide)⟩

/-- The values appended by one bucket `GetValue` call equal the scanned
live matches, for any starting accumulator. -/
theorem getValueGo_eq_scan (cmp : Nat → Nat → Bool) (key : Nat) :
    ∀ (b : List Slot) (acc : List Nat),
      Bucket.getValueGo cmp key b acc = acc ++ liveScanValues b key cmp := by
  intro b
  induction b with
  | nil => intro acc; simp [Bucket.getValueGo, liveScanValues]
  | cons s rest ih =>
    intro acc
    cases hocc : s.occ with
    | false =>
      simp [Bucket.getValueGo, liveScanValues, hocc, List.takeWhile]
    | true =>
      cases hm : s.rd && cmp s.key key with
      | false =>
        simp [Bucket.getValueGo, liveScanValues, hocc, hm, List.takeWhile, ih,
          List.filter_cons]
      | true =>
        simp [Bucket.getValueGo, liveScanValues, hocc, hm, List.takeWhile, ih,
          List.filter_cons]

/-- Claim C9 (amended): for every bucket-page state and every output
vector, `GetValue` appends exactly the values of the readable matching
slots that lie before the first non-occupied slot, and returns true iff
the output vector is non-empty after the call (so a non-empty vector on
entry makes it return true even when nothing was appended). -/
theorem c9_getValue_appends_scanned (b : Bucket) (key : Nat) (cmp : Nat → Nat → Bool)
    (out : List Nat) :
    (Bucket.getValue b key cmp out).1 = out ++ liveScanValues b key cmp ∧
    (Bucket.getValue b key cmp out).2 = !(out ++ liveScanValues b key cmp).isEmpty := by
  unfold Bucket.getValue
  rw [getValueGo_eq_scan]
  exact ⟨rfl, rfl⟩

/-- Reading a list at the index just written. -/
theorem getD_set_self {α : Type} (l : List α) (j : Nat) (a d : α) (h : j < l.length) :
    (l.set j a).getD j d = a := by
  have h2 : j < (l.set j a).length := by simpa using h
  rw [List.getD_eq_getElem _ _ h2, List.getElem_set_self]

/-- Reading a list away from the index just written. -/
theorem getD_set_ne {α : Type} (l : List α) (i j : Nat) (a d : α) (hne : i ≠ j) :
    (l.set j a).getD i d = l.getD i d := by
  rcases Nat.lt_or_ge i l.length with h | h
  · have h2 : i < (l.set j a).length := by simpa using h
    rw [List.getD_eq_getElem _ _ h2, List.getD_eq_getElem _ _ h,
      List.getElem_set_ne (Ne.symm hne)]
  · rw [List.getD_eq_default _ _ (by simpa using h), List.getD_eq_default _ _ h]

/-- Reading a replicated all-zero slot list gives the zero slot at every
index. -/
theorem getD_replicate_slot (n i : Nat) :
    (List.replicate n Slot.zero).getD i Slot.zero = Slot.zero := by
  rcases Nat.lt_or_ge i (List.replicate n Slot.zero).length with h | h
  · rw [List.getD_eq_getElem _ _ h, List.getElem_replicate]
  · rw [List.getD_eq_default _ _ h]

/-- Downward closedness of the occupied bits survives dropping the head
slot. -/
theorem occDownClosed_tail {a : Slot} {rest : Bucket} (h : occDownClosed (a :: rest)) :
    occDownClosed rest := by
  intro i j hij hj
  have hj2 : occAt (a :: rest) (j + 1) = true := by
    unfold occAt at hj ⊢
    rwa [List.getD_cons_succ]
  have := h (i + 1) (j + 1) (by omega) hj2
  unfold occAt at this ⊢
  rwa [List.getD_cons_succ] at this

/-- The index-based `rdSubOcc` invariant, element-wise. -/
theorem rd_imp_occ_mem {b : Bucket} (h : rdSubOcc b) :
    ∀ s ∈ b, s.rd = true → s.occ = true := by
  intro s hs hrd
  obtain ⟨i, hi, rfl⟩ := List.mem_iff_getElem.mp hs
  have h1 : rdAt b i = true := by
    unfold rdAt
    rw [List.getD_eq_getElem _ _ hi]
    exact hrd
  have h2 := h i h1
  unfold occAt at h2
  rwa [List.getD_eq_getElem _ _ hi] at h2

/-- Under a contiguous occupied region, every slot the occupied-break
scan skips has its occupied bit clear. -/
theorem dropWhile_occ_false :
    ∀ b : Bucket, occDownClosed b →
      ∀ s ∈ b.dropWhile (fun t => t.occ), s.occ = false := by
  intro b
  induction b with
  | nil => intro _ s hs; simp [List.dropWhile] at hs
  | cons a rest ih =>
    intro h s hs
    rw [List.dropWhile_cons] at hs
    cases ha : a.occ with
    | true =>
      rw [ha] at hs
      simp only [if_true] at hs
      exact ih (occDownClosed_tail h) s hs
    | false =>
      rw [ha] at hs
      simp only [Bool.false_eq_true, if_false] at hs
      rcases List.mem_cons.mp hs with rfl | hs2
      · exact ha
      · obtain ⟨i, hi, rfl⟩ := List.mem_iff_getElem.mp hs2
        by_contra hocc
        have h3 : rest[i].occ = true := by
          cases hval : rest[i].occ
          · exact absurd hval hocc
          · rfl
        have h4 : occAt (a :: rest) (i + 1) = true := by
          unfold occAt
          rw [List.getD_cons_succ, List.getD_eq_getElem _ _ hi]
          exact h3
        have h0 := h 0 (i + 1) (by omega) h4
        unfold occAt at h0
        rw [List.getD_cons_zero] at h0
        rw [ha] at h0
        exact absurd h0 (by simp)

/-- Under the contiguity invariants the occupied-break scan collects the
same values as a scan of the whole slot array. -/
theorem scan_eq_filter (b : Bucket) (key : Nat) (cmp : Nat → Nat → Bool)
    (hocc : occDownClosed b) (hrd : rdSubOcc b) :
    liveScanValues b key cmp =
      (b.filter (fun s => s.rd && cmp s.key key)).map (fun s => s.val) := by
  unfold liveScanValues
  conv_rhs => rw [← List.takeWhile_append_dropWhile (p := fun s : Slot => s.occ) (l := b)]
  rw [List.filter_append]
  have hnil : (b.dropWhile (fun t => t.occ)).filter (fun s => s.rd && cmp s.key key) = [] := by
    rw [List.filter_eq_nil_iff]
    intro s hs
    have h1 : s.occ = false := dropWhile_occ_false b hocc s hs
    have h2 : s.rd = false := by
      cases hval : s.rd
      · rfl
      · have hsplit := List.takeWhile_append_dropWhile (p := fun t : Slot => t.occ) (l := b)
        have hmem : s ∈ b := by
          rw [← hsplit]
          exact List.mem_append_right _ hs
        have hct := rd_imp_occ_mem hrd s hmem hval
        rw [h1] at hct
        exact absurd hct (by simp)
    simp [h2]
  rw [hnil, List.append_nil]

/-- The accumulator of the insert scan, once set, is returned
unchanged. -/
theorem insertScan_acc_some (key val : Nat) (cmp : Nat → Nat → Bool) :
    ∀ (l : List Slot) (idx f : Nat) (r : Option Nat),
      Bucket.insertScan key val cmp l idx (some f) = some r → r = some f := by
  intro l
  induction l with
  | nil =>
    intro idx f r h
    simp [Bucket.insertScan] at h
    exact h.symm
  | cons s rest ih =>
    intro idx f r h
    unfold Bucket.insertScan at h
    cases hrd : s.rd with
    | true =>
      rw [hrd] at h
      simp only [if_true] at h
      cases hdup : (cmp s.key key && s.val == val) with
      | true => rw [hdup] at h; simp at h
      | false => rw [hdup] at h; simp only [Bool.false_eq_true, if_false] at h; exact ih _ _ _ h
    | false =>
      rw [hrd] at h
      simp only [Bool.false_eq_true, if_false] at h
      exact ih _ _ _ h

/-- When the insert scan starts with no free slot remembered and
succeeds, the returned slot is the first non-readable one. -/
theorem insertScan_none_some (key val : Nat) (cmp : Nat → Nat → Bool) :
    ∀ (l : List Slot) (idx f : Nat),
      Bucket.insertScan key val cmp l idx none = some (some f) →
      ∃ j, f = idx + j ∧ j < l.length ∧ rdAt l j = false ∧
        ∀ m, m < j → rdAt l m = true := by
  intro l
  induction l with
  | nil => intro idx f h; simp [Bucket.insertScan] at h
  | cons s rest ih =>
    intro idx f h
    unfold Bucket.insertScan at h
    cases hrd : s.rd with
    | true =>
      rw [hrd] at h
      simp only [if_true] at h
      cases hdup : (cmp s.key key && s.val == val) with
      | true => rw [hdup] at h; simp at h
      | false =>
        rw [hdup] at h
        simp only [Bool.false_eq_true, if_false] at h
        obtain ⟨j, hf, hlen, hj, hm⟩ := ih (idx + 1) f h
        refine ⟨j + 1, by omega, by simpa using hlen, ?_, ?_⟩
        · unfold rdAt at hj ⊢
          rwa [List.getD_cons_succ]
        · intro m hmlt
          cases m with
          | zero =>
            unfold rdAt
            rw [List.getD_cons_zero]
            exact hrd
          | succ m2 =>
            unfold rdAt
            rw [List.getD_cons_succ]
            exact hm m2 (by omega)
    | false =>
      rw [hrd] at h
      simp only [Bool.false_eq_true, if_false] at h
      have := insertScan_acc_some key val cmp rest (idx + 1) idx _ h
      have hf : f = idx := by
        cases this
        rfl
      refine ⟨0, by omega, by simp, ?_, by omega⟩
      unfold rdAt
      rw [List.getD_cons_zero]
      exact hrd

/-- A successful bucket `Remove` leaves the occupied bits untouched and
only clears readable bits. -/
theorem removeGo_spec (key val : Nat) (cmp : Nat → Nat → Bool) :
    ∀ (l l2 : List Slot), Bucket.removeGo key val cmp l = some l2 →
      ∀ i, occAt l2 i = occAt l i ∧ (rdAt l2 i = true → rdAt l i = true) := by
  intro l
  induction l with
  | nil => intro l2 h; simp [Bucket.removeGo] at h
  | cons s rest ih =>
    intro l2 h i
    unfold Bucket.removeGo at h
    cases hocc : s.occ with
    | false => rw [hocc] at h; simp at h
    | true =>
      rw [hocc] at h
      simp only [Bool.not_true, Bool.false_eq_true, if_false, Bool.and_true] at h
      cases hhit : (s.rd && (cmp s.key key && s.val == val)) with
      | true =>
        rw [hhit] at h
        simp only [if_true, Option.some.injEq] at h
        subst h
        cases i with
        | zero =>
          constructor
          · unfold occAt
            rw [List.getD_cons_zero, List.getD_cons_zero]
            exact hocc.symm
          · intro hr
            unfold rdAt at hr
            rw [List.getD_cons_zero] at hr
            simp at hr
        | succ i2 =>
          unfold occAt rdAt
          rw [List.getD_cons_succ, List.getD_cons_succ]
          exact ⟨rfl, fun hr => hr⟩
      | false =>
        rw [hhit] at h
        simp only [Bool.false_eq_true, if_false] at h
        cases hrec : Bucket.removeGo key val cmp rest with
        | none => rw [hrec] at h; simp at h
        | some rest2 =>
          rw [hrec] at h
          simp only [Option.some.injEq] at h
          subst h
          cases i with
          | zero =>
            unfold occAt rdAt
            rw [List.getD_cons_zero, List.getD_cons_zero]
            exact ⟨rfl, fun hr => hr⟩
          | succ i2 =>
            unfold occAt rdAt
            rw [List.getD_cons_succ, List.getD_cons_succ]
            have := ih rest2 hrec i2
            unfold occAt rdAt at this
            exact this

/-- Both contiguity invariants hold in every reachable bucket state. -/
theorem bucketReach_inv (n : Nat) (b : Bucket) (h : BucketReach n b) :
    occDownClosed b ∧ rdSubOcc b := by
  induction h with
  | init =>
    constructor
    · intro i j _ hj
      unfold occAt at hj
      rw [getD_replicate_slot] at hj
      exact absurd hj (by simp [Slot.zero])
    · intro i hr
      unfold rdAt at hr
      rw [getD_replicate_slot] at hr
      exact absurd hr (by simp [Slot.zero])
  | reset _ _ =>
    constructor
    · intro i j _ hj
      unfold occAt at hj
      simp only [Bucket.copyMappingsAndResetPage] at hj
      rw [getD_replicate_slot] at hj
      exact absurd hj (by simp [Slot.zero])
    · intro i hr
      unfold rdAt at hr
      simp only [Bucket.copyMappingsAndResetPage] at hr
      rw [getD_replicate_slot] at hr
      exact absurd hr (by simp [Slot.zero])
  | rem key val cmp _ ih =>
    rename_i b2 _
    cases hrec : Bucket.removeGo key val cmp b2 with
    | none =>
      simpa [Bucket.remove, hrec] using ih
    | some l2 =>
      have hspec := removeGo_spec key val cmp b2 l2 hrec
      simp only [Bucket.remove, hrec]
      constructor
      · intro i j hij hj
        rw [(hspec j).1] at hj
        rw [(hspec i).1]
        exact ih.1 i j hij hj
      · intro i hr
        rw [(hspec i).1]
        exact ih.2 i ((hspec i).2 hr)
  | ins key val cmp _ ih =>
    rename_i b2 _
    cases hscan : Bucket.insertScan key val cmp b2 0 none with
    | none => simpa [Bucket.insert, hscan] using ih
    | some o =>
      cases o with
      | none => simpa [Bucket.insert, hscan] using ih
      | some f =>
        obtain ⟨j, hf, hlen, hjrd, hm⟩ := insertScan_none_some key val cmp b2 0 f hscan
        have hfj : f = j := by omega
        subst hfj
        simp only [Bucket.insert, hscan]
        constructor
        · intro i k hik hk
          by_cases hi : i = f
          · subst hi
            unfold occAt
            rw [getD_set_self _ _ _ _ hlen]
          · unfold occAt
            rw [getD_set_ne _ _ _ _ _ hi]
            by_cases hkf : k = f
            · subst hkf
              have hlt : i < k := by omega
              exact ih.2 i (hm i hlt)
            · unfold occAt at hk
              rw [getD_set_ne _ _ _ _ _ hkf] at hk
              exact ih.1 i k hik hk
        · intro i hr
          by_cases hi : i = f
          · subst hi
            unfold occAt
            rw [getD_set_self _ _ _ _ hlen]
          · unfold occAt
            unfold rdAt at hr
            rw [getD_set_ne _ _ _ _ _ hi] at hr ⊢
            exact ih.2 i hr

/-- Claim C10: in every bucket state reachable from the all-zero page by
`Insert`, `Remove` and `CopyMappingsAndResetPage`, the occupied bits are
a contiguous region at the start of the slot array (downward closed over
indices), every readable slot lies inside it, and consequently the
occupied-break scan of `GetValue` collects every readable matching
entry of the whole array. -/
theorem c10_occupied_contiguous (n : Nat) (b : Bucket) (h : BucketReach n b) :
    occDownClosed b ∧ rdSubOcc b ∧
    ∀ (key : Nat) (cmp : Nat → Nat → Bool) (out : List Nat),
      (Bucket.getValue b key cmp out).1 =
        out ++ (b.filter (fun s => s.rd && cmp s.key key)).map (fun s => s.val) := by
  obtain ⟨h1, h2⟩ := bucketReach_inv n b h
  refine ⟨h1, h2, ?_⟩
  intro key cmp out
  unfold Bucket.getValue
  rw [getValueGo_eq_scan, scan_eq_filter b key cmp h1 h2]

/-- Claim C10, witness: the invariants at the reachable one-insert
state. -/
theorem c10_occupied_contiguous_witness :
    BucketReach 4 (Bucket.insert (List.replicate 4 Slot.zero) 1 2 natCmp).1 ∧
    (occDownClosed (Bucket.insert (List.replicate 4 Slot.zero) 1 2 natCmp).1 ∧
     rdSubOcc (Bucket.insert (List.replicate 4 Slot.zero) 1 2 natCmp).1 ∧
     ∀ (key : Nat) (cmp : Nat → Nat → Bool) (out : List Nat),
       (Bucket.getValue (Bucket.insert (List.replicate 4 Slot.zero) 1 2 natCmp).1
           key cmp out).1 =
         out ++ ((Bucket.insert (List.replicate 4 Slot.zero) 1 2 natCmp).1.filter
           (fun s => s.rd && cmp s.key key)).map (fun s => s.val)) :=
  ⟨BucketReach.ins 1 2 natCmp BucketReach.init,
   c10_occupied_contiguous 4 _ (BucketReach.ins 1 2 natCmp BucketReach.init)⟩

/-- Projection: setting a bucket page id leaves the local depths. -/
theorem setBucketPageId_localDepth (d : DirPage) (i p : Nat) :
    (d.setBucketPageId i p).localDepth = d.localDepth := rfl

/-- Projection: setting a bucket page id leaves the global depth. -/
theorem setBucketPageId_globalDepth (d : DirPage) (i p : Nat) :
    (d.setBucketPageId i p).globalDepth = d.globalDepth := rfl

/-- Pointwise value of a bucket page id write. -/
theorem setBucketPageId_bucketPageId (d : DirPage) (i p j : Nat) :
    (d.setBucketPageId i p).bucketPageId j = if j = i then p else d.bucketPageId j := rfl

/-- Projection: setting a local depth leaves the bucket page ids. -/
theorem setLocalDepth_bucketPageId (d : DirPage) (i ld : Nat) :
    (d.setLocalDepth i ld).bucketPageId = d.bucketPageId := rfl

/-- Projection: setting a local depth leaves the global depth. -/
theorem setLocalDepth_globalDepth (d : DirPage) (i ld : Nat) :
    (d.setLocalDepth i ld).globalDepth = d.globalDepth := rfl

/-- Pointwise value of a local depth write. -/
theorem setLocalDepth_localDepth (d : DirPage) (i ld j : Nat) :
    (d.setLocalDepth i ld).localDepth j = if j = i then ld else d.localDepth j := rfl

/-- Two congruent numbers within one step of each other are equal. -/
theorem mod_eq_close (a b n : Nat) (hle : a ≤ b) (hm : a % n = b % n) (hd : b - a < n) :
    a = b := by
  have hdvd : n ∣ b - a := (Nat.modEq_iff_dvd' hle).mp hm
  have h0 : b - a = 0 := Nat.eq_zero_of_dvd_of_lt hdvd hd
  omega

/-- Stepping down by the modulus preserves the residue. -/
theorem sub_step_mod (m n : Nat) (h : n ≤ m) : (m - n) % n = m % n := by
  conv_rhs => rw [← Nat.sub_add_cancel h, Nat.add_mod_right]

/-- Toggling bit `k` changes the residue modulo `2 ^ (k + 1)`. -/
theorem xor_pow_mod_ne (i k : Nat) :
    Nat.xor i (2 ^ k) % 2 ^ (k + 1) ≠ i % 2 ^ (k + 1) := by
  intro h
  have hx : (Nat.xor i (2 ^ k)).testBit k = !(i.testBit k) := by
    show (i ^^^ 2 ^ k).testBit k = !(i.testBit k)
    rw [Nat.testBit_xor, Nat.testBit_two_pow_self]
    cases i.testBit k <;> rfl
  have h1 := congrArg (fun x => x.testBit k) h
  simp only [Nat.testBit_mod_two_pow] at h1
  rw [hx] at h1
  have hk : (decide (k < k + 1)) = true := decide_eq_true (Nat.lt_succ_self k)
  rw [hk, Bool.true_and, Bool.true_and] at h1
  cases hv : i.testBit k <;> rw [hv] at h1 <;> simp at h1

/-- Effect of the downward pointer-fix sweep: every slot at or below the
start that shares the start's residue modulo the step receives the new
page id and the split image's local depth; every other slot is
untouched; the global depth and the split image's local depth are
preserved. -/
theorem splitDownSweep_spec (newPid s ldv : Nat) :
    ∀ (fuel : Nat) (d : DirPage) (idx : Nat), idx < fuel →
      (HT.splitDownSweep newPid s ldv fuel d idx).globalDepth = d.globalDepth ∧
      (HT.splitDownSweep newPid s ldv fuel d idx).localDepth s = d.localDepth s ∧
      (∀ j, j ≤ idx → j % 2 ^ ldv = idx % 2 ^ ldv →
        (HT.splitDownSweep newPid s ldv fuel d idx).bucketPageId j = newPid ∧
        (HT.splitDownSweep newPid s ldv fuel d idx).localDepth j = d.localDepth s) ∧
      (∀ j, ¬(j ≤ idx ∧ j % 2 ^ ldv = idx % 2 ^ ldv) →
        (HT.splitDownSweep newPid s ldv fuel d idx).bucketPageId j = d.bucketPageId j ∧
        (HT.splitDownSweep newPid s ldv fuel d idx).localDepth j = d.localDepth j) := by
  intro fuel
  induction fuel with
  | zero => intro d idx h; omega
  | succ fuel ih =>
    intro d idx hfuel
    have hp : 0 < 2 ^ ldv := Nat.two_pow_pos ldv
    simp only [HT.splitDownSweep]
    set e := ((d.setBucketPageId idx newPid).setLocalDepth idx
      ((d.setBucketPageId idx newPid).localDepth s)) with he
    have hgd : e.globalDepth = d.globalDepth := rfl
    have hld : ∀ j, e.localDepth j = if j = idx then d.localDepth s else d.localDepth j := by
      intro j
      rw [he, setLocalDepth_localDepth, setBucketPageId_localDepth]
    have hpg : ∀ j, e.bucketPageId j = if j = idx then newPid else d.bucketPageId j := by
      intro j
      rw [he]
      rw [show ((d.setBucketPageId idx newPid).setLocalDepth idx
        ((d.setBucketPageId idx newPid).localDepth s)).bucketPageId
          = (d.setBucketPageId idx newPid).bucketPageId from rfl]
      rw [setBucketPageId_bucketPageId]
    have hlds : e.localDepth s = d.localDepth s := by
      rw [hld]
      by_cases hsi : s = idx <;> simp [hsi]
    by_cases hlt : idx < 2 ^ ldv
    · simp only [if_pos hlt]
      refine ⟨hgd, hlds, ?_, ?_⟩
      · intro j hj1 hj2
        have hj3 : j % 2 ^ ldv = j := Nat.mod_eq_of_lt (lt_of_le_of_lt hj1 hlt)
        have hj4 : idx % 2 ^ ldv = idx := Nat.mod_eq_of_lt hlt
        have hji : j = idx := by omega
        subst hji
        rw [hpg, hld]
        simp
      · intro j hj
        have hne : j ≠ idx := by
          rintro rfl
          exact hj ⟨le_refl _, rfl⟩
        rw [hpg, hld]
        simp [hne]
    · simp only [if_neg hlt]
      have hstep : 2 ^ ldv ≤ idx := by omega
      obtain ⟨ihgd, ihlds, ihcov, ihun⟩ := ih e (idx - 2 ^ ldv) (by omega)
      have hmod : (idx - 2 ^ ldv) % 2 ^ ldv = idx % 2 ^ ldv := sub_step_mod idx (2 ^ ldv) hstep
      refine ⟨?_, ?_, ?_, ?_⟩
      · rw [ihgd, hgd]
      · rw [ihlds, hlds]
      · intro j hj1 hj2
        by_cases hj3 : j ≤ idx - 2 ^ ldv
        · have := ihcov j hj3 (by rw [hmod]; exact hj2)
          rw [hlds] at this
          exact this
        · have hji : j = idx := mod_eq_close j idx (2 ^ ldv) hj1 hj2 (by omega)
          subst hji
          have := ihun j (by
            rintro ⟨hcon, _⟩
            omega)
          rw [(hpg j), (hld j)] at this
          simp only [if_pos rfl] at this
          exact this
      · intro j hj
        have hne : j ≠ idx := by
          rintro rfl
          exact hj ⟨le_refl _, rfl⟩
        have hj2 : ¬(j ≤ idx - 2 ^ ldv ∧ j % 2 ^ ldv = (idx - 2 ^ ldv) % 2 ^ ldv) := by
          rintro ⟨h1, h2⟩
          rw [hmod] at h2
          exact hj ⟨by omega, h2⟩
        have := ihun j hj2
        rw [(hpg j), (hld j)] at this
        simp only [if_neg hne] at this
        exact this

/-- Effect of the upward pointer-fix sweep, symmetric to the downward
one: it covers the slots at or above the start, below the size bound,
sharing the start's residue. -/
theorem splitUpSweep_spec (newPid s ldv size : Nat) :
    ∀ (fuel : Nat) (d : DirPage) (idx : Nat), size ≤ idx + fuel →
      (HT.splitUpSweep newPid s ldv size fuel d idx).globalDepth = d.globalDepth ∧
      (HT.splitUpSweep newPid s ldv size fuel d idx).localDepth s = d.localDepth s ∧
      (∀ j, idx ≤ j → j < size → j % 2 ^ ldv = idx % 2 ^ ldv →
        (HT.splitUpSweep newPid s ldv size fuel d idx).bucketPageId j = newPid ∧
        (HT.splitUpSweep newPid s ldv size fuel d idx).localDepth j = d.localDepth s) ∧
      (∀ j, ¬(idx ≤ j ∧ j < size ∧ j % 2 ^ ldv = idx % 2 ^ ldv) →
        (HT.splitUpSweep newPid s ldv size fuel d idx).bucketPageId j = d.bucketPageId j ∧
        (HT.splitUpSweep newPid s ldv size fuel d idx).localDepth j = d.localDepth j) := by
  intro fuel
  induction fuel with
  | zero =>
    intro d idx hfs
    refine ⟨rfl, rfl, ?_, fun j _ => ⟨rfl, rfl⟩⟩
    intro j hj1 hj2 _
    omega
  | succ fuel ih =>
    intro d idx hfs
    have hp : 0 < 2 ^ ldv := Nat.two_pow_pos ldv
    rw [show HT.splitUpSweep newPid s ldv size (fuel + 1) d idx
      = (if idx < size then
          HT.splitUpSweep newPid s ldv size fuel
            ((d.setBucketPageId idx newPid).setLocalDepth idx
              ((d.setBucketPageId idx newPid).localDepth s)) (idx + 2 ^ ldv)
        else d) from rfl]
    by_cases hlt : idx < size
    · rw [if_pos hlt]
      set e := ((d.setBucketPageId idx newPid).setLocalDepth idx
        ((d.setBucketPageId idx newPid).localDepth s)) with he
      have hgd : e.globalDepth = d.globalDepth := rfl
      have hld : ∀ j, e.localDepth j = if j = idx then d.localDepth s else d.localDepth j := by
        intro j
        rw [he, setLocalDepth_localDepth, setBucketPageId_localDepth]
      have hpg : ∀ j, e.bucketPageId j = if j = idx then newPid else d.bucketPageId j := by
        intro j
        rw [he]
        rw [show ((d.setBucketPageId idx newPid).setLocalDepth idx
          ((d.setBucketPageId idx newPid).localDepth s)).bucketPageId
            = (d.setBucketPageId idx newPid).bucketPageId from rfl]
        rw [setBucketPageId_bucketPageId]
      have hlds : e.localDepth s = d.localDepth s := by
        rw [hld]
        by_cases hsi : s = idx <;> simp [hsi]
      obtain ⟨ihgd, ihlds, ihcov, ihun⟩ := ih e (idx + 2 ^ ldv) (by omega)
      have hmod : (idx + 2 ^ ldv) % 2 ^ ldv = idx % 2 ^ ldv := Nat.add_mod_right idx (2 ^ ldv)
      refine ⟨?_, ?_, ?_, ?_⟩
      · rw [ihgd, hgd]
      · rw [ihlds, hlds]
      · intro j hj1 hj2 hj3
        by_cases hj4 : idx + 2 ^ ldv ≤ j
        · have := ihcov j hj4 hj2 (by rw [hmod]; exact hj3)
          rw [hlds] at this
          exact this
        · have hji : idx = j := mod_eq_close idx j (2 ^ ldv) hj1 hj3.symm (by omega)
          subst hji
          have := ihun idx (by
            rintro ⟨hcon, _⟩
            omega)
          rw [(hpg idx), (hld idx)] at this
          simp only [if_pos rfl] at this
          exact this
      · intro j hj
        have hne : j ≠ idx := by
          rintro rfl
          exact hj ⟨le_refl _, hlt, rfl⟩
        have hj2 : ¬(idx + 2 ^ ldv ≤ j ∧ j < size ∧ j % 2 ^ ldv = (idx + 2 ^ ldv) % 2 ^ ldv) := by
          rintro ⟨h1, h2, h3⟩
          rw [hmod] at h3
          exact hj ⟨by omega, h2, h3⟩
        have := ihun j hj2
        rw [(hpg j), (hld j)] at this
        simp only [if_neg hne] at this
        exact this
    · rw [if_neg hlt]
      refine ⟨rfl, rfl, ?_, fun j _ => ⟨rfl, rfl⟩⟩
      intro j hj1 hj2 _
      omega

/-- Effect of the base phase of the split's directory mutation. -/
theorem dirSplitBase_spec (d : DirPage) (i : Nat) (hi : i < 2 ^ d.globalDepth) :
    (HT.dirSplitBase d i).localDepth i = d.localDepth i + 1 ∧
    (HT.dirSplitBase d i).bucketPageId i = d.bucketPageId i ∧
    (HT.dirSplitBase d i).globalDepth =
      (if d.globalDepth < d.localDepth i + 1 then d.globalDepth + 1 else d.globalDepth) ∧
    (d.localDepth i + 1 ≤ d.globalDepth →
      ∀ j, j ≠ i → (HT.dirSplitBase d i).bucketPageId j = d.bucketPageId j ∧
        (HT.dirSplitBase d i).localDepth j = d.localDepth j) := by
  by_cases hexp : d.globalDepth < d.localDepth i + 1
  · have hcond : (d.incrLocalDepth i).localDepth i > d.globalDepth := by
      simp [DirPage.incrLocalDepth, DirPage.setLocalDepth]
      omega
    refine ⟨?_, ?_, ?_, ?_⟩
    · simp [HT.dirSplitBase, hcond, hexp, DirPage.incrGlobalDepth, DirPage.incrLocalDepth,
        DirPage.setLocalDepth, hi]
    · simp [HT.dirSplitBase, hcond, hexp, DirPage.incrGlobalDepth, DirPage.incrLocalDepth,
        DirPage.setLocalDepth, hi]
    · simp [HT.dirSplitBase, hcond, hexp, DirPage.incrGlobalDepth, DirPage.incrLocalDepth,
        DirPage.setLocalDepth]
    · intro hcon
      omega
  · have hcond : ¬((d.incrLocalDepth i).localDepth i > d.globalDepth) := by
      simp [DirPage.incrLocalDepth, DirPage.setLocalDepth]
      omega
    refine ⟨?_, ?_, ?_, ?_⟩
    · simp [HT.dirSplitBase, hcond, hexp, DirPage.incrLocalDepth, DirPage.setLocalDepth]
    · simp [HT.dirSplitBase, hcond, hexp, DirPage.incrLocalDepth, DirPage.setLocalDepth]
    · simp [HT.dirSplitBase, hcond, hexp, DirPage.incrLocalDepth, DirPage.setLocalDepth]
    · intro _ j hj
      simp [HT.dirSplitBase, hcond, hexp, DirPage.incrLocalDepth, DirPage.setLocalDepth, hj]

/-- Effect of the pointer-fix phase of the split's directory mutation:
the returned split image is `i` with bit `local_depth[i] - 1` toggled;
every directory slot sharing the split image's residue modulo
`2 ^ local_depth[i]` receives the new page id and `local_depth[i]`;
every slot outside that residue class is untouched. -/
theorem dirSplitPointerFix_spec (d2 : DirPage) (i newPid : Nat) :
    (HT.dirSplitPointerFix d2 i newPid).2.1 = Nat.xor i (2 ^ (d2.localDepth i - 1)) ∧
    (HT.dirSplitPointerFix d2 i newPid).1.globalDepth = d2.globalDepth ∧
    (∀ j, j < 2 ^ d2.globalDepth →
      j % 2 ^ d2.localDepth i =
        (HT.dirSplitPointerFix d2 i newPid).2.1 % 2 ^ d2.localDepth i →
      (HT.dirSplitPointerFix d2 i newPid).1.bucketPageId j = newPid ∧
      (HT.dirSplitPointerFix d2 i newPid).1.localDepth j = d2.localDepth i) ∧
    (∀ j, j % 2 ^ d2.localDepth i ≠
        (HT.dirSplitPointerFix d2 i newPid).2.1 % 2 ^ d2.localDepth i →
      (HT.dirSplitPointerFix d2 i newPid).1.bucketPageId j = d2.bucketPageId j ∧
      (HT.dirSplitPointerFix d2 i newPid).1.localDepth j = d2.localDepth j) := by
  simp only [HT.dirSplitPointerFix]
  set L := d2.localDepth i with hLdef
  set s := d2.getSplitImageIndex i with hsdef
  set d4 := (d2.setLocalDepth s (d2.localDepth i)).setBucketPageId s newPid with hd4
  have h4gd : d4.globalDepth = d2.globalDepth := rfl
  have h4ld : ∀ j, d4.localDepth j = if j = s then L else d2.localDepth j := by
    intro j
    rw [hd4]
    rw [show ((d2.setLocalDepth s (d2.localDepth i)).setBucketPageId s newPid).localDepth
      = (d2.setLocalDepth s (d2.localDepth i)).localDepth from rfl]
    rw [setLocalDepth_localDepth]
  have h4pg : ∀ j, d4.bucketPageId j = if j = s then newPid else d2.bucketPageId j := by
    intro j
    rw [hd4, setBucketPageId_bucketPageId, setLocalDepth_bucketPageId]
  have h4lds : d4.localDepth s = L := by rw [h4ld]; simp
  have h4ldi : d4.localDepth i = L := by
    rw [h4ld]
    by_cases his : i = s <;> simp [his]
  rw [h4ldi]
  obtain ⟨dgd, dlds, dcov, dun⟩ :=
    splitDownSweep_spec newPid s L (s + 1) d4 s (by omega)
  set d5 := HT.splitDownSweep newPid s L (s + 1) d4 s with hd5
  have h5gd : d5.globalDepth = d2.globalDepth := by rw [hd5, dgd, h4gd]
  have h5lds : d5.localDepth s = L := by rw [hd5, dlds, h4lds]
  obtain ⟨ugd, ulds, ucov, uun⟩ :=
    splitUpSweep_spec newPid s L (2 ^ d5.globalDepth) (2 ^ d5.globalDepth + 1) d5 s
      (by omega)
  set d6 := HT.splitUpSweep newPid s L (2 ^ d5.globalDepth) (2 ^ d5.globalDepth + 1) d5 s
    with hd6
  have h6gd : d6.globalDepth = d2.globalDepth := by rw [hd6, ugd, h5gd]
  refine ⟨by rw [hsdef]; rfl, h6gd, ?_, ?_⟩
  · intro j hj hmod
    have hjsize : j < 2 ^ d5.globalDepth := by rw [h5gd]; exact hj
    by_cases hjs : j ≤ s
    · have hdownj := dcov j hjs hmod
      rw [h4lds] at hdownj
      by_cases hjeq : j = s
      · subst hjeq
        by_cases hss : s < 2 ^ d5.globalDepth
        · have := ucov s (le_refl s) hss rfl
          rw [h5lds] at this
          exact this
        · exact absurd hjsize hss
      · have := uun j (by
          rintro ⟨hle, _, _⟩
          exact hjeq (le_antisymm hjs hle))
        rw [this.1, this.2]
        exact hdownj
    · have := ucov j (by omega) hjsize hmod
      rw [h5lds] at this
      exact this
  · intro j hmod
    have hjs : j ≠ s := by
      rintro rfl
      exact hmod rfl
    have hdown := dun j (by
      rintro ⟨_, hc⟩
      exact hmod hc)
    have hup := uun j (by
      rintro ⟨_, _, hc⟩
      exact hmod hc)
    rw [hup.1, hup.2, hdown.1, hdown.2, h4pg, h4ld]
    simp [hjs]

/-- Claim C2 (amended): after `SplitInsert` updates the directory for a
split at index `i`, every slot whose low `local_depth[i] + 1` bits equal
the split image's points at the new bucket page with the incremented
local depth, and slot `i` itself keeps the old bucket page and carries
the incremented local depth — but when no directory expansion happens,
every other slot, including the remaining slots whose low bits equal
`i`'s, retains its previous bucket page and its previous (stale,
un-incremented) local depth. -/
theorem c2_split_pointer_fix (d : DirPage) (i newPid : Nat)
    (hi : i < 2 ^ d.globalDepth) :
    (HT.dirSplitUpdate d i newPid).1.globalDepth =
      (if d.globalDepth < d.localDepth i + 1 then d.globalDepth + 1 else d.globalDepth) ∧
    (∀ j, j < 2 ^ (HT.dirSplitUpdate d i newPid).1.globalDepth →
      j % 2 ^ (d.localDepth i + 1) =
        (HT.dirSplitUpdate d i newPid).2.1 % 2 ^ (d.localDepth i + 1) →
      (HT.dirSplitUpdate d i newPid).1.bucketPageId j = newPid ∧
      (HT.dirSplitUpdate d i newPid).1.localDepth j = d.localDepth i + 1) ∧
    ((HT.dirSplitUpdate d i newPid).1.localDepth i = d.localDepth i + 1 ∧
     (HT.dirSplitUpdate d i newPid).1.bucketPageId i = d.bucketPageId i) ∧
    (d.localDepth i + 1 ≤ d.globalDepth →
      ∀ j, j % 2 ^ (d.localDepth i + 1) = i % 2 ^ (d.localDepth i + 1) → j ≠ i →
        (HT.dirSplitUpdate d i newPid).1.bucketPageId j = d.bucketPageId j ∧
        (HT.dirSplitUpdate d i newPid).1.localDepth j = d.localDepth j) := by
  obtain ⟨b1, b2, b3, b4⟩ := dirSplitBase_spec d i hi
  have hdef : HT.dirSplitUpdate d i newPid
      = HT.dirSplitPointerFix (HT.dirSplitBase d i) i newPid := rfl
  obtain ⟨p1, p2, p3, p4⟩ := dirSplitPointerFix_spec (HT.dirSplitBase d i) i newPid
  rw [b1] at p1 p3 p4
  have hs : (HT.dirSplitPointerFix (HT.dirSplitBase d i) i newPid).2.1
      = Nat.xor i (2 ^ d.localDepth i) := by
    have harg : d.localDepth i + 1 - 1 = d.localDepth i := by omega
    rw [p1, harg]
  have hine : i % 2 ^ (d.localDepth i + 1)
      ≠ (HT.dirSplitPointerFix (HT.dirSplitBase d i) i newPid).2.1
        % 2 ^ (d.localDepth i + 1) := by
    rw [hs]
    exact fun hcon => xor_pow_mod_ne i (d.localDepth i) hcon.symm
  refine ⟨?_, ?_, ?_, ?_⟩
  · rw [hdef, p2, b3]
  · intro j hj hmod
    rw [hdef] at hj ⊢
    exact p3 j (by rw [p2] at hj; exact hj) hmod
  · have := p4 i hine
    rw [hdef, this.1, this.2]
    exact ⟨b1, b2⟩
  · intro hle j hmod hnej
    have hcls : j % 2 ^ (d.localDepth i + 1)
        ≠ (HT.dirSplitPointerFix (HT.dirSplitBase d i) i newPid).2.1
          % 2 ^ (d.localDepth i + 1) := by
      intro hcon
      exact hine (hmod ▸ hcon)
    have hp4 := p4 j hcls
    have hb4 := b4 hle j hnej
    rw [hdef, hp4.1, hp4.2]
    exact hb4

/-- Claim C2, witness: the amended statement at the concrete reachable
directory `dirC2`, split index 4, new page 5. -/
theorem c2_split_pointer_fix_witness :
    (4 < 2 ^ dirC2.globalDepth) ∧
    ((HT.dirSplitUpdate dirC2 4 5).1.globalDepth =
      (if dirC2.globalDepth < dirC2.localDepth 4 + 1 then dirC2.globalDepth + 1
        else dirC2.globalDepth) ∧
    (∀ j, j < 2 ^ (HT.dirSplitUpdate dirC2 4 5).1.globalDepth →
      j % 2 ^ (dirC2.localDepth 4 + 1) =
        (HT.dirSplitUpdate dirC2 4 5).2.1 % 2 ^ (dirC2.localDepth 4 + 1) →
      (HT.dirSplitUpdate dirC2 4 5).1.bucketPageId j = 5 ∧
      (HT.dirSplitUpdate dirC2 4 5).1.localDepth j = dirC2.localDepth 4 + 1) ∧
    ((HT.dirSplitUpdate dirC2 4 5).1.localDepth 4 = dirC2.localDepth 4 + 1 ∧
     (HT.dirSplitUpdate dirC2 4 5).1.bucketPageId 4 = dirC2.bucketPageId 4) ∧
    (dirC2.localDepth 4 + 1 ≤ dirC2.globalDepth →
      ∀ j, j % 2 ^ (dirC2.localDepth 4 + 1) = 4 % 2 ^ (dirC2.localDepth 4 + 1) → j ≠ 4 →
        (HT.dirSplitUpdate dirC2 4 5).1.bucketPageId j = dirC2.bucketPageId j ∧
        (HT.dirSplitUpdate dirC2 4 5).1.localDepth j = dirC2.localDepth j)) :=
  ⟨by decide, c2_split_pointer_fix dirC2 4 5 (by decide)⟩

/-- Claim C7 (amended): wound-wait on upgrade only applies to requests
positioned ahead of the upgrader in the queue.  When the younger
transaction's granted shared request precedes the older upgrader's
request, `LockUpgrade` wounds it: the request is removed, the younger
transaction is set to ABORTED, the upgrader's request becomes the
granted EXCLUSIVE request, the rid moves from the upgrader's shared set
to its exclusive set, and the younger transaction's next lock call
returns false.  (When the younger request is behind the upgrader's —
the counterexample — it is left granted and untouched.) -/
theorem c7_upgrade_wounds_ahead (w : LMWorld) (t1 t2 rid rid2 : Nat)
    (h12 : t1 < t2)
    (hq : w.queue rid = [⟨t2, .shared, true⟩, ⟨t1, .shared, true⟩])
    (hu : w.upgrading rid = none)
    (hst : (w.txns t1).state = .growing)
    (hsh : (w.txns t1).shared.contains rid = true)
    (hex : (w.txns t1).excl.contains rid = false) :
    (LM.lockUpgrade w t1 rid).1 = .ret true ∧
    (LM.lockUpgrade w t1 rid).2.queue rid = [⟨t1, .exclusive, true⟩] ∧
    ((LM.lockUpgrade w t1 rid).2.txns t2).state = .aborted ∧
    ((LM.lockUpgrade w t1 rid).2.txns t1).excl = rid :: (w.txns t1).excl ∧
    ((LM.lockUpgrade w t1 rid).2.txns t1).shared = (w.txns t1).shared.erase rid ∧
    (LM.lockShared (LM.lockUpgrade w t1 rid).2 t2 rid2).1 = .ret false ∧
    (LM.lockExclusive (LM.lockUpgrade w t1 rid).2 t2 rid2).1 = .ret false := by
  have hne21 : t2 ≠ t1 := by omega
  have hne12 : t1 ≠ t2 := by omega
  have hb21 : (t2 == t1) = false := by simp [hne21]
  have hb11 : (t1 == t1) = true := by simp
  have hsh2 : rid ∈ (w.txns t1).shared := by simpa using hsh
  have hex2 : rid ∉ (w.txns t1).excl := by simpa using hex
  refine ⟨?_, ?_, ?_, ?_, ?_, ?_, ?_⟩ <;>
    simp [LM.lockUpgrade, LM.lockShared, LM.lockExclusive, LM.needWaitForUpgrade,
      LM.needWaitForUpgradeScan, LM.grantUpgrade, LM.setQueue, LM.setUpgrading, LM.setTxn,
      hq, hu, hst, hsh, hex, hsh2, hex2, hb21, hb11, h12, hne21, hne12]

/-- Claim C7, witness: the wound applied on the reversed acquisition
order (queue `[T2 shared granted, T1 shared granted]`), at the concrete
reachable state `c7B2`. -/
theorem c7_upgrade_wounds_ahead_witness :
    (1 < 2 ∧
     c7B2.queue 5 = [⟨2, .shared, true⟩, ⟨1, .shared, true⟩] ∧
     c7B2.upgrading 5 = none ∧
     (c7B2.txns 1).state = .growing ∧
     (c7B2.txns 1).shared.contains 5 = true ∧
     (c7B2.txns 1).excl.contains 5 = false) ∧
    ((LM.lockUpgrade c7B2 1 5).1 = .ret true ∧
     (LM.lockUpgrade c7B2 1 5).2.queue 5 = [⟨1, .exclusive, true⟩] ∧
     ((LM.lockUpgrade c7B2 1 5).2.txns 2).state = .aborted ∧
     ((LM.lockUpgrade c7B2 1 5).2.txns 1).excl = 5 :: (c7B2.txns 1).excl ∧
     ((LM.lockUpgrade c7B2 1 5).2.txns 1).shared = (c7B2.txns 1).shared.erase 5 ∧
     (LM.lockShared (LM.lockUpgrade c7B2 1 5).2 2 7).1 = .ret false ∧
     (LM.lockExclusive (LM.lockUpgrade c7B2 1 5).2 2 7).1 = .ret false) :=
  ⟨⟨by decide, by decide, by decide, by decide, by decide, by decide⟩,
   c7_upgrade_wounds_ahead c7B2 1 2 5 7 (by decide) (by decide) (by decide) (by decide)
     (by decide) (by decide)⟩

/-- Claim C9, counterexample: bucket `GetValue` returns
`!result->empty()`, so on an empty bucket with a non-empty output vector
it returns true although it appended nothing; and a readable matching
slot hidden behind a non-occupied gap (slot 2 of `bGap`) is never
appended because the scan breaks at the gap. -/
theorem c9_counterexample :
    Bucket.getValue bEmpty4 9 natCmp [42] = ([42], true) ∧
    Bucket.getValue bGap 1 natCmp [] = ([10], true) ∧
    (bGap.getD 2 Slot.zero).rd = true ∧
    natCmp (bGap.getD 2 Slot.zero).key 1 = true ∧
    (bGap.getD 2 Slot.zero).val = 11 ∧
    ¬ (11 ∈ [10]) := by decide

end BusTub
